import Mathlib

/-!
Kone: walkers carving a shared maze.

A shallow embedding of `src/walkers.js` (the `Walker` base class and its nine
subclasses) and of the tick loop of `src/dungeon.js`.

* Coordinates and integer parameters are mathematical integers (`Int`): the model
  covers the range in which JavaScript number arithmetic on integers is exact.
* A JavaScript `Set` of position keys is a `Finset String`; the key of a cell is
  the string built by `getPosition`.
* The shared `mazeState` set, which every walker holds by reference, is passed
  explicitly into and out of every operation.
* `Math.random()` is a stream of draws; a draw is an exact rational `num / den`
  in `[0, 1)` and each call consumes the head of the stream.
* A thrown exception or a loop that is still running when its fuel is used up is
  a `Failure`.
-/

namespace Kone

/-! ## Keys and sets -/

/-- Key of the cell `(x, y)`: the template literal of `Walker.getPosition`, decimal
`x`, a comma, decimal `y`. -/
def getPosition (x y : Int) : String := toString x ++ "," ++ toString y

/-- A JavaScript `Set` of position keys. -/
abbrev KeySet := Finset String

/-- Value of an ASCII digit. -/
def digitVal (c : Char) : Nat := c.toNat - 48

/-- Value of a string of decimal digits, most significant digit first. -/
def decodeNat (l : List Char) : Nat := l.foldl (fun acc c => 10 * acc + digitVal c) 0

/-- Value of a decimal numeral with an optional leading minus sign. -/
def decodeInt : List Char → Int
  | '-' :: l => - (decodeNat l : Int)
  | l => (decodeNat l : Int)

/-- A displacement object with fields `dx` and `dy`. -/
structure Dir where
  dx : Int
  dy : Int
deriving DecidableEq, Repr

/-- The integers `lo, lo + 1, ..., hi` in this order (empty when `hi < lo`): the values
taken by the counter of `for (let i = lo; i <= hi; i++)`. -/
def intRange (lo hi : Int) : List Int :=
  (List.range (hi - lo + 1).toNat).map (fun (i : Nat) => lo + (i : Int))

/-! ## The random source -/

/-- One result of `Math.random()`: the rational `num / den`, which lies in `[0, 1)`. -/
structure Draw where
  num : Nat
  den : Nat
  lt_den : num < den

/-- A non-negative rational constant `num / den` that a draw is compared with. -/
structure Frac where
  num : Nat
  den : Nat
  den_pos : 0 < den

/-- The test `Math.random() < p`. -/
def Draw.lt (r : Draw) (p : Frac) : Bool := decide (r.num * p.den < p.num * r.den)

/-- The test `Math.random() > p`. -/
def Draw.gt (r : Draw) (p : Frac) : Bool := decide (p.num * r.den < r.num * p.den)

/-- The index `Math.floor(Math.random() * n)`. -/
def Draw.floorMul (r : Draw) (n : Nat) : Nat := r.num * n / r.den

/-- The successive results of `Math.random()`; index 0 is the next one. -/
abbrev Rng := Nat → Draw

/-- The stream left after `k` calls of `Math.random()`. -/
def Rng.drop (g : Rng) (k : Nat) : Rng := fun n => g (n + k)

/-- The element `l[Math.floor(Math.random() * l.length)]` of a non-empty array. -/
def pick (l : List Dir) (h : 0 < l.length) (r : Draw) : Dir :=
  l.get ⟨r.floorMul l.length,
    Nat.div_lt_of_lt_mul (Nat.mul_lt_mul_of_pos_right r.lt_den h)⟩

/-- The constant 0.3. -/
def p03 : Frac := ⟨3, 10, by decide⟩

/-- The constant 0.2. -/
def p02 : Frac := ⟨1, 5, by decide⟩

/-- The constant 0.5. -/
def p05 : Frac := ⟨1, 2, by decide⟩

/-! ## Failures -/

/-- The ways an operation fails to return. -/
inductive Failure where
  /-- The statement `throw new Error(message)`. -/
  | error (message : String)
  /-- The `RangeError` thrown when the length of an array is set to a value that is not in
  `0 .. 2^32 - 1`: by `Array(n)`, and by `concat` when it sets the length of its result. -/
  | rangeError
  /-- The resample loop was still running when the fuel was used up. -/
  | outOfFuel
deriving DecidableEq, Repr

/-- The array `Array(n).fill(v)` for an integer `n`. -/
def arrayFill (n : Int) (v : Dir) : Except Failure (List Dir) :=
  if 0 ≤ n ∧ n < 4294967296 then .ok (List.replicate n.toNat v) else .error .rangeError

/-- The array `a.concat(b)`: the entries of `a` followed by those of `b`; the call throws
when it sets the length of the result if that length exceeds `2^32 - 1`. -/
def arrayConcat (a b : List Dir) : Except Failure (List Dir) :=
  if a.length + b.length ≤ 4294967295 then .ok (a ++ b) else .error .rangeError

/-! ## The base class -/

/-- The value passed to a constructor as `mazeState`. -/
inductive MazeArg where
  | undefined
  | null
  /-- Any other value that is not an instance of `Set`. -/
  | notASet
  | set (s : KeySet)

/-- Fields of the base class `Walker`; the field `mazeState` is the shared set that is
passed alongside. -/
structure Walker where
  x : Int
  y : Int
  name : String
  color : String
  visited : KeySet

/-- The constructor of `Walker`: returns the new walker and the shared set. -/
def Walker.new (x y : Int) (name color : String) (mazeState : MazeArg) :
    Except Failure (Walker × KeySet) :=
  match mazeState with
  | .set s =>
    let pos := getPosition x y
    .ok ({ x := x, y := y, name := name, color := color, visited := insert pos ∅ },
      insert pos s)
  | _ => .error (.error "Walker requires a valid mazeState Set.")

/-- The method `move` of the base class. -/
def Walker.move (_w : Walker) (_mazeState : KeySet) : Except Failure (Walker × KeySet) :=
  .error (.error "move() must be implemented in subclasses")

/-- The block shared by the `move` methods: `this.x += move.dx; this.y += move.dy;`
then the key of the new position is added to `visited` and to `mazeState`. -/
def Walker.applyMove (w : Walker) (mazeState : KeySet) (move : Dir) : Walker × KeySet :=
  let x := w.x + move.dx
  let y := w.y + move.dy
  let pos := getPosition x y
  ({ w with x := x, y := y, visited := insert pos w.visited }, insert pos mazeState)

/-- The array literal `directions` of `RandomWalker.move`, `DrunkenWalker.move` and
`WallHuggerWalker.move`, and `baseDirections` of `WeightedWalker.move`. -/
def directions : List Dir := [⟨0, -1⟩, ⟨0, 1⟩, ⟨-1, 0⟩, ⟨1, 0⟩]

/-! ## The nine walkers -/

/-- Class `RandomWalker`: no fields of its own. -/
structure RandomWalker extends Walker

/-- Constructor of `RandomWalker`; `color` defaults to "red". -/
def RandomWalker.new (x y : Int) (mazeState : MazeArg) (color : Option String) :
    Except Failure (RandomWalker × KeySet) :=
  match Walker.new x y "R" (color.getD "red") mazeState with
  | .ok (b, s) => .ok ({ toWalker := b }, s)
  | .error e => .error e

/-- Method `RandomWalker.move`. -/
def RandomWalker.move (w : RandomWalker) (mazeState : KeySet) (g : Rng) :
    RandomWalker × KeySet × Rng :=
  let res : Dir × Rng :=
    if (g 0).lt p03 then
      match directions.find?
          (fun dir => decide (getPosition (w.x + dir.dx) (w.y + dir.dy) ∈ mazeState)) with
      | some dir => (dir, g.drop 1)
      | none => (pick directions (by decide) (g 1), g.drop 2)
    else (pick directions (by decide) (g 1), g.drop 2)
  let r := w.toWalker.applyMove mazeState res.1
  ({ w with toWalker := r.1 }, r.2, res.2)

/-- Class `WeightedWalker`. -/
structure WeightedWalker extends Walker where
  biasDirection : Dir
  biasWeight : Int

/-- Constructor of `WeightedWalker`; defaults "blue", `{ dx: 1, dy: 0 }` and 3. -/
def WeightedWalker.new (x y : Int) (mazeState : MazeArg) (color : Option String)
    (biasDirection : Option Dir) (biasWeight : Option Int) :
    Except Failure (WeightedWalker × KeySet) :=
  match Walker.new x y "W" (color.getD "blue") mazeState with
  | .ok (b, s) =>
    .ok ({ toWalker := b, biasDirection := biasDirection.getD ⟨1, 0⟩,
           biasWeight := biasWeight.getD 3 }, s)
  | .error e => .error e

/-- The array `weightedDirections` built by `WeightedWalker.move`:
`baseDirections.concat(Array(this.biasWeight).fill(this.biasDirection))`. -/
def WeightedWalker.weightedDirections (w : WeightedWalker) : Except Failure (List Dir) :=
  match arrayFill w.biasWeight w.biasDirection with
  | .error e => .error e
  | .ok extra => arrayConcat directions extra

/-- Method `WeightedWalker.move`. -/
def WeightedWalker.move (w : WeightedWalker) (mazeState : KeySet) (g : Rng) :
    Except Failure (WeightedWalker × KeySet × Rng) :=
  match h : w.weightedDirections with
  | .error e => .error e
  | .ok weightedDirections =>
    let move := pick weightedDirections
      (by
        unfold WeightedWalker.weightedDirections at h
        split at h
        · cases h
        · unfold arrayConcat at h
          split at h
          · cases h
            rw [List.length_append]
            exact Nat.lt_of_lt_of_le (by decide) (Nat.le_add_right _ _)
          · cases h)
      (g 0)
    let r := w.toWalker.applyMove mazeState move
    .ok ({ w with toWalker := r.1 }, r.2, g.drop 1)

/-- Class `CorridorWalker`. -/
structure CorridorWalker extends Walker where
  direction : Dir
  turnChance : Frac

/-- Constructor of `CorridorWalker`; `color` defaults to "green". -/
def CorridorWalker.new (x y : Int) (mazeState : MazeArg) (color : Option String) :
    Except Failure (CorridorWalker × KeySet) :=
  match Walker.new x y "C" (color.getD "green") mazeState with
  | .ok (b, s) => .ok ({ toWalker := b, direction := ⟨1, 0⟩, turnChance := p02 }, s)
  | .error e => .error e

/-- Method `CorridorWalker.move`. -/
def CorridorWalker.move (w : CorridorWalker) (mazeState : KeySet) (g : Rng) :
    CorridorWalker × KeySet × Rng :=
  let res : Dir × Rng :=
    if (g 0).lt w.turnChance ||
        decide (getPosition (w.x + w.direction.dx) (w.y + w.direction.dy) ∈ mazeState) then
      (if (g 1).gt p05 then ⟨w.direction.dy, -w.direction.dx⟩
        else ⟨-w.direction.dy, w.direction.dx⟩, g.drop 2)
    else (w.direction, g.drop 1)
  let r := w.toWalker.applyMove mazeState res.1
  ({ w with toWalker := r.1, direction := res.1 }, r.2, res.2)

/-- Class `RoomExpander`. -/
structure RoomExpander extends Walker where
  roomSize : Int
  steps : Nat

/-- Constructor of `RoomExpander`; defaults "purple" and 5. -/
def RoomExpander.new (x y : Int) (mazeState : MazeArg) (color : Option String)
    (roomSize : Option Int) : Except Failure (RoomExpander × KeySet) :=
  match Walker.new x y "O" (color.getD "purple") mazeState with
  | .ok (b, s) => .ok ({ toWalker := b, roomSize := roomSize.getD 5, steps := 0 }, s)
  | .error e => .error e

/-- The two nested `for` loops of `RoomExpander.move`: for `dx` and then `dy` from
`-half` to `half`, the key of `(x + dx, y + dy)` is added to `visited` and to
`mazeState`. The state of the loops is the pair of the two sets. -/
def RoomExpander.stamp (x y half : Int) (visited mazeState : KeySet) : KeySet × KeySet :=
  (intRange (-half) half).foldl
    (fun acc dx =>
      (intRange (-half) half).foldl
        (fun acc2 dy =>
          let pos := getPosition (x + dx) (y + dy)
          (insert pos acc2.1, insert pos acc2.2))
        acc)
    (visited, mazeState)

/-- Method `RoomExpander.move`. -/
def RoomExpander.move (w : RoomExpander) (mazeState : KeySet) (g : Rng) :
    RoomExpander × KeySet × Rng :=
  let x := w.x + (((g 0).floorMul 3 : Int) - 1)
  let y := w.y + (((g 1).floorMul 3 : Int) - 1)
  let half := w.roomSize / 2
  let r := RoomExpander.stamp x y half w.visited mazeState
  ({ w with x := x, y := y, visited := r.1, steps := w.steps + 1 }, r.2, g.drop 2)

/-- Class `ZigZagWalker`. -/
structure ZigZagWalker extends Walker where
  direction : Dir
  turnChance : Frac

/-- Constructor of `ZigZagWalker`; `color` defaults to "yellow". -/
def ZigZagWalker.new (x y : Int) (mazeState : MazeArg) (color : Option String) :
    Except Failure (ZigZagWalker × KeySet) :=
  match Walker.new x y "Z" (color.getD "yellow") mazeState with
  | .ok (b, s) => .ok ({ toWalker := b, direction := ⟨1, 0⟩, turnChance := p05 }, s)
  | .error e => .error e

/-- Method `ZigZagWalker.move`. -/
def ZigZagWalker.move (w : ZigZagWalker) (mazeState : KeySet) (g : Rng) :
    ZigZagWalker × KeySet × Rng :=
  let res : Dir × Rng :=
    if (g 0).lt w.turnChance then
      (if (g 1).gt p05 then ⟨-w.direction.dy, w.direction.dx⟩
        else ⟨w.direction.dy, -w.direction.dx⟩, g.drop 2)
    else (w.direction, g.drop 1)
  let r := w.toWalker.applyMove mazeState res.1
  ({ w with toWalker := r.1, direction := res.1 }, r.2, res.2)

/-- Class `ChaoticClusterWalker`. -/
structure ChaoticClusterWalker extends Walker where
  startX : Int
  startY : Int
  clusterRadius : Int

/-- Constructor of `ChaoticClusterWalker`; defaults "orange" and 5. -/
def ChaoticClusterWalker.new (x y : Int) (mazeState : MazeArg) (color : Option String)
    (clusterRadius : Option Int) : Except Failure (ChaoticClusterWalker × KeySet) :=
  match Walker.new x y "C" (color.getD "orange") mazeState with
  | .ok (b, s) =>
    .ok ({ toWalker := b, startX := x, startY := y, clusterRadius := clusterRadius.getD 5 }, s)
  | .error e => .error e

/-- The `do ... while` loop of `ChaoticClusterWalker.move`: each iteration draws `dx` and
then `dy` in `{-1, 0, 1}` and the loop repeats while the new position would leave the
cluster. At most `fuel` iterations are run. -/
def ChaoticClusterWalker.sample (w : ChaoticClusterWalker) :
    Nat → Rng → Except Failure (Dir × Rng)
  | 0, _ => .error .outOfFuel
  | fuel + 1, g =>
    let move : Dir := ⟨((g 0).floorMul 3 : Int) - 1, ((g 1).floorMul 3 : Int) - 1⟩
    if |w.x + move.dx - w.startX| > w.clusterRadius ∨
        |w.y + move.dy - w.startY| > w.clusterRadius then
      ChaoticClusterWalker.sample w fuel (g.drop 2)
    else .ok (move, g.drop 2)

/-- Method `ChaoticClusterWalker.move`, its loop bounded by `fuel` iterations. -/
def ChaoticClusterWalker.move (fuel : Nat) (w : ChaoticClusterWalker) (mazeState : KeySet)
    (g : Rng) : Except Failure (ChaoticClusterWalker × KeySet × Rng) :=
  match ChaoticClusterWalker.sample w fuel g with
  | .error e => .error e
  | .ok (move, g1) =>
    let r := w.toWalker.applyMove mazeState move
    .ok ({ w with toWalker := r.1 }, r.2, g1)

/-- The array `this.directions` of `SpiralWalker`. -/
def SpiralWalker.directions : List Dir := [⟨1, 0⟩, ⟨0, 1⟩, ⟨-1, 0⟩, ⟨0, -1⟩]

/-- Class `SpiralWalker`. The field `directionIndex` is only ever assigned 0 and
`(directionIndex + 1) % 4`, so it is an index below 4; the field `directions` is the
constant `SpiralWalker.directions`. -/
structure SpiralWalker extends Walker where
  stepSize : Nat
  stepsTaken : Nat
  directionIndex : Fin 4

/-- Constructor of `SpiralWalker`; `color` defaults to "cyan". -/
def SpiralWalker.new (x y : Int) (mazeState : MazeArg) (color : Option String) :
    Except Failure (SpiralWalker × KeySet) :=
  match Walker.new x y "S" (color.getD "cyan") mazeState with
  | .ok (b, s) => .ok ({ toWalker := b, stepSize := 1, stepsTaken := 0, directionIndex := 0 }, s)
  | .error e => .error e

/-- Method `SpiralWalker.move`. -/
def SpiralWalker.move (w : SpiralWalker) (mazeState : KeySet) : SpiralWalker × KeySet :=
  let move := SpiralWalker.directions.get ⟨w.directionIndex.val, w.directionIndex.isLt⟩
  let r := w.toWalker.applyMove mazeState move
  let stepsTaken := w.stepsTaken + 1
  if stepsTaken ≥ w.stepSize then
    let directionIndex : Fin 4 := ⟨(w.directionIndex.val + 1) % 4, Nat.mod_lt _ (by decide)⟩
    ({ toWalker := r.1, stepsTaken := 0, directionIndex := directionIndex,
       stepSize := if directionIndex.val % 2 = 0 then w.stepSize + 1 else w.stepSize }, r.2)
  else
    ({ w with toWalker := r.1, stepsTaken := stepsTaken }, r.2)

/-- Class `DrunkenWalker`; `prevMove` is `none` for `null`. -/
structure DrunkenWalker extends Walker where
  prevMove : Option Dir

/-- Constructor of `DrunkenWalker`; `color` defaults to "brown". -/
def DrunkenWalker.new (x y : Int) (mazeState : MazeArg) (color : Option String) :
    Except Failure (DrunkenWalker × KeySet) :=
  match Walker.new x y "D" (color.getD "brown") mazeState with
  | .ok (b, s) => .ok ({ toWalker := b, prevMove := none }, s)
  | .error e => .error e

/-- The displacement chosen by `DrunkenWalker.move` and the stream left: the first draw
is always made, the second only when the walker does not backtrack. -/
def DrunkenWalker.choose (w : DrunkenWalker) (g : Rng) : Dir × Rng :=
  match (g 0).lt p02, w.prevMove with
  | true, some prev => (⟨-prev.dx, -prev.dy⟩, g.drop 1)
  | _, _ => (pick directions (by decide) (g 1), g.drop 2)

/-- Method `DrunkenWalker.move`. -/
def DrunkenWalker.move (w : DrunkenWalker) (mazeState : KeySet) (g : Rng) :
    DrunkenWalker × KeySet × Rng :=
  let res := DrunkenWalker.choose w g
  let r := w.toWalker.applyMove mazeState res.1
  ({ toWalker := r.1, prevMove := some res.1 }, r.2, res.2)

/-- Class `WallHuggerWalker`. -/
structure WallHuggerWalker extends Walker where
  direction : Dir

/-- Constructor of `WallHuggerWalker`; defaults "pink" and `{ dx: 1, dy: 0 }`. -/
def WallHuggerWalker.new (x y : Int) (mazeState : MazeArg) (color : Option String)
    (direction : Option Dir) : Except Failure (WallHuggerWalker × KeySet) :=
  match Walker.new x y "H" (color.getD "pink") mazeState with
  | .ok (b, s) => .ok ({ toWalker := b, direction := direction.getD ⟨1, 0⟩ }, s)
  | .error e => .error e

/-- The displacement chosen by `WallHuggerWalker.move` and the stream left. -/
def WallHuggerWalker.choose (w : WallHuggerWalker) (mazeState : KeySet) (g : Rng) : Dir × Rng :=
  let move := w.direction
  if getPosition (w.x + move.dx) (w.y + move.dy) ∉ w.visited ∧
      getPosition (w.x + move.dx) (w.y + move.dy) ∉ mazeState then
    let possibleMoves := directions.filter (fun dir =>
      decide (getPosition (w.x + dir.dx) (w.y + dir.dy) ∈ mazeState) &&
      !decide (getPosition (w.x + dir.dx) (w.y + dir.dy) ∈ w.visited))
    if h : possibleMoves.length > 0 then (pick possibleMoves h (g 0), g.drop 1)
    else (pick directions (by decide) (g 0), g.drop 1)
  else (move, g)

/-- Method `WallHuggerWalker.move`. -/
def WallHuggerWalker.move (w : WallHuggerWalker) (mazeState : KeySet) (g : Rng) :
    WallHuggerWalker × KeySet × Rng :=
  let res := WallHuggerWalker.choose w mazeState g
  let r := w.toWalker.applyMove mazeState res.1
  ({ toWalker := r.1, direction := res.1 }, r.2, res.2)

/-! ## Walkers of any class, and the tick loop of the dungeon -/

/-- A walker of any of the nine classes: an element of the array `walkers`. -/
inductive AnyWalker where
  | random (w : RandomWalker)
  | weighted (w : WeightedWalker)
  | corridor (w : CorridorWalker)
  | room (w : RoomExpander)
  | zigzag (w : ZigZagWalker)
  | cluster (w : ChaoticClusterWalker)
  | spiral (w : SpiralWalker)
  | drunken (w : DrunkenWalker)
  | hugger (w : WallHuggerWalker)

/-- The base-class fields of a walker of any class. -/
def AnyWalker.toWalker : AnyWalker → Walker
  | .random w => w.toWalker
  | .weighted w => w.toWalker
  | .corridor w => w.toWalker
  | .room w => w.toWalker
  | .zigzag w => w.toWalker
  | .cluster w => w.toWalker
  | .spiral w => w.toWalker
  | .drunken w => w.toWalker
  | .hugger w => w.toWalker

/-- The call `walker.move()`, dispatched on the class of the walker. -/
def AnyWalker.move (fuel : Nat) (w : AnyWalker) (mazeState : KeySet) (g : Rng) :
    Except Failure (AnyWalker × KeySet × Rng) :=
  match w with
  | .random w => let r := w.move mazeState g; .ok (.random r.1, r.2)
  | .weighted w => (w.move mazeState g).map (fun r => (.weighted r.1, r.2))
  | .corridor w => let r := w.move mazeState g; .ok (.corridor r.1, r.2)
  | .room w => let r := w.move mazeState g; .ok (.room r.1, r.2)
  | .zigzag w => let r := w.move mazeState g; .ok (.zigzag r.1, r.2)
  | .cluster w => (w.move fuel mazeState g).map (fun r => (.cluster r.1, r.2))
  | .spiral w => let r := w.move mazeState; .ok (.spiral r.1, r.2, g)
  | .drunken w => let r := w.move mazeState g; .ok (.drunken r.1, r.2)
  | .hugger w => let r := w.move mazeState g; .ok (.hugger r.1, r.2)

/-- A constructor call: the class and the arguments that follow `x`, `y` and
`mazeState`; `none` is an argument left out. -/
inductive Config where
  | random (color : Option String)
  | weighted (color : Option String) (biasDirection : Option Dir) (biasWeight : Option Int)
  | corridor (color : Option String)
  | room (color : Option String) (roomSize : Option Int)
  | zigzag (color : Option String)
  | cluster (color : Option String) (clusterRadius : Option Int)
  | spiral (color : Option String)
  | drunken (color : Option String)
  | hugger (color : Option String) (direction : Option Dir)

/-- The constructor call described by a `Config`. -/
def AnyWalker.new (c : Config) (x y : Int) (mazeState : MazeArg) :
    Except Failure (AnyWalker × KeySet) :=
  match c with
  | .random color => (RandomWalker.new x y mazeState color).map (fun r => (.random r.1, r.2))
  | .weighted color d n =>
    (WeightedWalker.new x y mazeState color d n).map (fun r => (.weighted r.1, r.2))
  | .corridor color =>
    (CorridorWalker.new x y mazeState color).map (fun r => (.corridor r.1, r.2))
  | .room color n => (RoomExpander.new x y mazeState color n).map (fun r => (.room r.1, r.2))
  | .zigzag color => (ZigZagWalker.new x y mazeState color).map (fun r => (.zigzag r.1, r.2))
  | .cluster color n =>
    (ChaoticClusterWalker.new x y mazeState color n).map (fun r => (.cluster r.1, r.2))
  | .spiral color => (SpiralWalker.new x y mazeState color).map (fun r => (.spiral r.1, r.2))
  | .drunken color => (DrunkenWalker.new x y mazeState color).map (fun r => (.drunken r.1, r.2))
  | .hugger color d =>
    (WallHuggerWalker.new x y mazeState color d).map (fun r => (.hugger r.1, r.2))

/-- State of the generation: the array `walkers`, the set they share, the random
stream, and the failure that ended the run, if any. -/
structure World where
  walkers : List AnyWalker
  mazeState : KeySet
  rng : Rng
  failure : Option Failure

/-- Method `InfiniteDungeon.moveWalkers`: `this.walkers.forEach((walker) => walker.move())`.
A failure ends the loop; the walkers moved before it keep their new state. -/
def moveWalkers (fuel : Nat) : List AnyWalker → KeySet → Rng → World
  | [], mazeState, g => ⟨[], mazeState, g, none⟩
  | w :: ws, mazeState, g =>
    match w.move fuel mazeState g with
    | .error e => ⟨w :: ws, mazeState, g, some e⟩
    | .ok (w1, m1, g1) =>
      let r := moveWalkers fuel ws m1 g1
      ⟨w1 :: r.walkers, r.mazeState, r.rng, r.failure⟩

/-- Method `InfiniteDungeon.expandMaze(steps)`: `steps` ticks, each a call of
`moveWalkers` (the drawing that follows a tick changes no walker and no set). -/
def expandMaze (fuel : Nat) : Nat → List AnyWalker → KeySet → Rng → World
  | 0, ws, mazeState, g => ⟨ws, mazeState, g, none⟩
  | steps + 1, ws, mazeState, g =>
    let r := moveWalkers fuel ws mazeState g
    match r.failure with
    | some e => ⟨r.walkers, r.mazeState, r.rng, some e⟩
    | none => expandMaze fuel steps r.walkers r.mazeState r.rng

/-! ## Repeated moves of one walker -/

/-- State of a `SpiralWalker` and the shared set after `n` calls of `move`. -/
def SpiralWalker.run : Nat → SpiralWalker → KeySet → SpiralWalker × KeySet
  | 0, w, mazeState => (w, mazeState)
  | n + 1, w, mazeState =>
    let r := SpiralWalker.run n w mazeState
    r.1.move r.2

/-- State of a `CorridorWalker`, the shared set and the stream after `n` calls of
`move`. -/
def CorridorWalker.run : Nat → CorridorWalker → KeySet → Rng → CorridorWalker × KeySet × Rng
  | 0, w, mazeState, g => (w, mazeState, g)
  | n + 1, w, mazeState, g =>
    let r := CorridorWalker.run n w mazeState g
    r.1.move r.2.1 r.2.2

/-- State of a `ChaoticClusterWalker`, the shared set and the stream after `n` calls of
`move`, each with its loop bounded by `fuel` iterations. -/
def ChaoticClusterWalker.run (fuel : Nat) :
    Nat → ChaoticClusterWalker → KeySet → Rng →
      Except Failure (ChaoticClusterWalker × KeySet × Rng)
  | 0, w, mazeState, g => .ok (w, mazeState, g)
  | n + 1, w, mazeState, g =>
    match ChaoticClusterWalker.run fuel n w mazeState g with
    | .error e => .error e
    | .ok (w1, m1, g1) => w1.move fuel m1 g1

/-! ## Predicates used by the statements -/

/-- Invariant of a walker: the key of its position is in its own `visited` set and in
the shared set. -/
def Walker.Recorded (w : Walker) (mazeState : KeySet) : Prop :=
  getPosition w.x w.y ∈ w.visited ∧ getPosition w.x w.y ∈ mazeState

/-- Holds of every walker but a `RoomExpander` with a negative `roomSize`. -/
def AnyWalker.RoomSizeOk : AnyWalker → Prop
  | .room w => 0 ≤ w.roomSize
  | _ => True

/-- The relation between a walker before and after some moves: its own set has only
grown. -/
def AnyWalker.Grows (w w1 : AnyWalker) : Prop := w.toWalker.visited ⊆ w1.toWalker.visited

/-- The stream whose every draw is `r`. -/
def Rng.const (r : Draw) : Rng := fun _ => r

/-- Number of moves made before leg `k` of the spiral begins: the lengths
`floor(j / 2) + 1` of the legs `j < k` added up. -/
def legStart : Nat → Nat
  | 0 => 0
  | k + 1 => legStart k + (k / 2 + 1)

/-- The fields of a `SpiralWalker` that `move()` reads and writes besides the two sets:
position, `stepSize`, `stepsTaken` and `directionIndex`. -/
def SpiralWalker.ctrl (w : SpiralWalker) : Int × Int × Nat × Nat × Fin 4 :=
  (w.x, w.y, w.stepSize, w.stepsTaken, w.directionIndex)

/-- The position of a `ChaoticClusterWalker` and every key of its `visited` set lie in
the square of half-side `clusterRadius` around its start. -/
def ChaoticClusterWalker.Confined (w : ChaoticClusterWalker) : Prop :=
  (|w.x - w.startX| ≤ w.clusterRadius ∧ |w.y - w.startY| ≤ w.clusterRadius) ∧
  ∀ k ∈ w.visited, ∃ x y : Int, k = getPosition x y ∧
    |x - w.startX| ≤ w.clusterRadius ∧ |y - w.startY| ≤ w.clusterRadius

/-- The continue-test of the `do ... while` loop of `ChaoticClusterWalker.move` for the
displacement `d`: the loop repeats when it holds. -/
def ChaoticClusterWalker.rejects (w : ChaoticClusterWalker) (d : Dir) : Prop :=
  |w.x + d.dx - w.startX| > w.clusterRadius ∨ |w.y + d.dy - w.startY| > w.clusterRadius

/-- The continue-test is decidable. -/
instance ChaoticClusterWalker.decidableRejects (w : ChaoticClusterWalker) (d : Dir) :
    Decidable (w.rejects d) :=
  inferInstanceAs (Decidable (|w.x + d.dx - w.startX| > w.clusterRadius ∨
    |w.y + d.dy - w.startY| > w.clusterRadius))

/-- The displacement drawn by iteration `j` (counted from 0) of the resample loop that
starts with the stream `g`: its draws are number `2 * j` and `2 * j + 1`. -/
def drawnMove (g : Rng) (j : Nat) : Dir :=
  ⟨((g (2 * j)).floorMul 3 : Int) - 1, ((g (2 * j + 1)).floorMul 3 : Int) - 1⟩

/-- The condition under which `move()` returns: the pool of `4 + biasWeight` entries of
a `WeightedWalker` is an array of valid length (at most `2^32 - 1`); one of the first `fuel` iterations of the loop of a
`ChaoticClusterWalker` draws a displacement that the loop accepts; nothing for the other
classes. -/
def AnyWalker.MoveCompletes (fuel : Nat) : AnyWalker → Rng → Prop
  | .weighted w, _ => 0 ≤ w.biasWeight ∧ w.biasWeight < 4294967292
  | .cluster w, g => ∃ j : Nat, j < fuel ∧ ¬ w.rejects (drawnMove g j)
  | _, _ => True

/-- The call `pos.split(",")` on the characters of `pos`: the pieces between the commas,
in order; a string without a comma gives one piece. -/
def splitComma : List Char → List (List Char)
  | [] => [[]]
  | c :: l =>
    if c = ',' then [] :: splitComma l
    else
      match splitComma l with
      | [] => [[c]]
      | piece :: rest => (c :: piece) :: rest

/-- The call `Number(s)` on the characters of a string, for the strings that are empty
(value 0) or decimal digits with an optional sign; `none` stands for every other string,
whose value is `NaN` or is not written this way. -/
def jsNumber (s : List Char) : Option Int :=
  match s with
  | [] => some 0
  | '-' :: ds => if !ds.isEmpty && ds.all Char.isDigit then some (-(decodeNat ds : Int)) else none
  | '+' :: ds => if !ds.isEmpty && ds.all Char.isDigit then some (decodeNat ds : Int) else none
  | ds => if ds.all Char.isDigit then some (decodeNat ds : Int) else none

/-- The decoding of a key in `InfiniteDungeon.drawMaze`:
`const [x, y] = pos.split(",").map(Number)`; `none` when `x` or `y` is missing or is not an
integer. -/
def decodeKey (pos : String) : Option (Int × Int) :=
  match (splitComma pos.data).map jsNumber with
  | some x :: some y :: _ => some (x, y)
  | _ => none

/-- The walkers of `main.js`: the constructor calls listed (class and arguments, `x`, `y`)
are made one after the other on the same shared set. -/
def constructAll : List (Config × Int × Int) → KeySet → Except Failure (List AnyWalker × KeySet)
  | [], s => .ok ([], s)
  | (c, x, y) :: rest, s =>
    match AnyWalker.new c x y (.set s) with
    | .error e => .error e
    | .ok (w, s1) =>
      match constructAll rest s1 with
      | .error e => .error e
      | .ok (ws, s2) => .ok (w :: ws, s2)

/-- Position, relative to the start, of the spiral before move `i` of leg `k`
(`i <= floor(k / 2)`): the closed form of the walk, with `j = floor(k / 4)` the number of
full turns made. -/
def spiralOffset (k i : Nat) : Int × Int :=
  match k % 4 with
  | 0 => (-((k / 4 : Nat) : Int) + (i : Int), -((k / 4 : Nat) : Int))
  | 1 => (((k / 4 : Nat) : Int) + 1, -((k / 4 : Nat) : Int) + (i : Int))
  | 2 => (((k / 4 : Nat) : Int) + 1 - (i : Int), ((k / 4 : Nat) : Int) + 1)
  | _ => (-(((k / 4 : Nat) : Int) + 1), ((k / 4 : Nat) : Int) + 1 - (i : Int))

/-! ## Keys are injective -/

theorem toDigitsCore_append (f : Nat) : ∀ (n : Nat) (ds : List Char),
    Nat.toDigitsCore 10 f n ds = Nat.toDigitsCore 10 f n [] ++ ds := by
  induction f with
  | zero => intro n ds; simp [Nat.toDigitsCore]
  | succ f ih =>
    intro n ds
    simp only [Nat.toDigitsCore]
    split
    · simp
    · rw [ih (n / 10) (_ :: ds), ih (n / 10) [_]]; simp

theorem toDigitsCore_fuel (f : Nat) : ∀ (g n : Nat), n < f → n < g →
    Nat.toDigitsCore 10 f n [] = Nat.toDigitsCore 10 g n [] := by
  induction f with
  | zero => intro g n h; omega
  | succ f ih =>
    intro g n hf hg
    cases g with
    | zero => omega
    | succ g =>
      simp only [Nat.toDigitsCore]
      split
      · rfl
      · rename_i h
        have h1 : n / 10 < f := by omega
        have h2 : n / 10 < g := by omega
        rw [toDigitsCore_append f, toDigitsCore_append g, ih g (n / 10) h1 h2]

theorem toDigitsCore_succ (f n : Nat) (ds : List Char) : Nat.toDigitsCore 10 (f + 1) n ds =
    if n / 10 = 0 then Nat.digitChar (n % 10) :: ds
    else Nat.toDigitsCore 10 f (n / 10) (Nat.digitChar (n % 10) :: ds) := by
  simp only [Nat.toDigitsCore]

theorem toDigits_step (n : Nat) : Nat.toDigits 10 n =
    if n < 10 then [Nat.digitChar n] else Nat.toDigits 10 (n / 10) ++ [Nat.digitChar (n % 10)] := by
  unfold Nat.toDigits
  rw [toDigitsCore_succ]
  by_cases h : n < 10
  · have h0 : n / 10 = 0 := by omega
    have h1 : n % 10 = n := by omega
    simp [h, h0, h1]
  · have h0 : ¬ n / 10 = 0 := by omega
    simp only [h0, h, if_false]
    rw [toDigitsCore_append, toDigitsCore_fuel n (n / 10 + 1) (n / 10) (by omega) (by omega)]

theorem digitVal_digitChar (k : Nat) (h : k < 10) : digitVal (Nat.digitChar k) = k := by
  interval_cases k <;> decide

theorem isDigit_digitChar (k : Nat) (h : k < 10) : (Nat.digitChar k).isDigit = true := by
  interval_cases k <;> decide

theorem decodeNat_toDigits (n : Nat) : decodeNat (Nat.toDigits 10 n) = n := by
  induction n using Nat.strong_induction_on with
  | _ n ih =>
    rw [toDigits_step]
    by_cases h : n < 10
    · simp [h, decodeNat, digitVal_digitChar n h]
    · simp only [h, if_false]
      have := ih (n / 10) (by omega)
      unfold decodeNat at this ⊢
      rw [List.foldl_append, this]
      simp [digitVal_digitChar (n % 10) (by omega)]
      omega

theorem isDigit_toDigits (n : Nat) : ∀ c ∈ Nat.toDigits 10 n, c.isDigit = true := by
  induction n using Nat.strong_induction_on with
  | _ n ih =>
    rw [toDigits_step]
    by_cases h : n < 10
    · simp [h, isDigit_digitChar n h]
    · simp only [h, if_false]
      intro c hc
      rcases List.mem_append.1 hc with hc | hc
      · exact ih (n / 10) (by omega) c hc
      · simp at hc; subst hc; exact isDigit_digitChar _ (by omega)

theorem toDigits_ne_nil (n : Nat) : Nat.toDigits 10 n ≠ [] := by
  rw [toDigits_step]; split <;> simp

theorem toString_int_data (x : Int) : (toString x).data =
    if 0 ≤ x then Nat.toDigits 10 x.toNat else '-' :: Nat.toDigits 10 (-x).toNat := by
  cases x with
  | ofNat m => simp [toString, Nat.repr, List.asString]
  | negSucc m =>
    have : ¬ (0 : Int) ≤ Int.negSucc m := by simp
    simp [toString, this, Nat.repr, List.asString]
    rfl

theorem decodeInt_toString (x : Int) : decodeInt (toString x).data = x := by
  rw [toString_int_data]
  by_cases h : 0 ≤ x
  · simp only [h, if_true]
    have hne := toDigits_ne_nil x.toNat
    have hd := isDigit_toDigits x.toNat
    cases hl : Nat.toDigits 10 x.toNat with
    | nil => exact absurd hl hne
    | cons c l =>
      have hc : c ≠ '-' := by
        intro hc; have := hd c (by rw [hl]; simp); rw [hc] at this; revert this; decide
      have : decodeInt (c :: l) = (decodeNat (c :: l) : Int) := by
        unfold decodeInt; split
        · rename_i heq; simp at heq; exact absurd heq.1 hc
        · rfl
      rw [this, ← hl, decodeNat_toDigits]; omega
  · simp only [h, if_false, decodeInt, decodeNat_toDigits]; omega

theorem comma_not_mem_toString (x : Int) : ',' ∉ (toString x).data := by
  rw [toString_int_data]
  intro hmem
  have key : ∀ n, ',' ∉ Nat.toDigits 10 n := by
    intro n hn; have := isDigit_toDigits n _ hn; revert this; decide
  split at hmem
  · exact key _ hmem
  · simp at hmem; exact key _ hmem

theorem split_at_sep {c : Char} : ∀ (l1 l1' l2 l2' : List Char), c ∉ l1 → c ∉ l1' →
    l1 ++ c :: l2 = l1' ++ c :: l2' → l1 = l1' ∧ l2 = l2' := by
  intro l1
  induction l1 with
  | nil =>
    intro l1' l2 l2' _ h' h
    cases l1' with
    | nil => simpa using h
    | cons a t => simp at h; simp [h.1] at h'
  | cons a t ih =>
    intro l1' l2 l2' h1 h' h
    cases l1' with
    | nil => simp at h; simp [h.1] at h1
    | cons b t' =>
      simp at h h1 h'
      obtain ⟨r1, r2⟩ := ih t' l2 l2' h1.2 h'.2 h.2
      exact ⟨by rw [h.1, r1], r2⟩

theorem getPosition_inj {x y x' y' : Int} :
    getPosition x y = getPosition x' y' ↔ x = x' ∧ y = y' := by
  constructor
  · intro h
    have hd := congrArg String.data h
    simp only [getPosition, String.data_append] at hd
    rw [List.append_assoc, List.append_assoc] at hd
    simp only [List.singleton_append] at hd
    obtain ⟨r1, r2⟩ := split_at_sep _ _ _ _ (comma_not_mem_toString x) (comma_not_mem_toString x') hd
    have e1 := congrArg decodeInt r1
    have e2 := congrArg decodeInt r2
    rw [decodeInt_toString, decodeInt_toString] at e1 e2
    exact ⟨e1, e2⟩
  · rintro ⟨rfl, rfl⟩; rfl

/-! ## Basic facts about moves -/

theorem mem_intRange {lo hi i : Int} : i ∈ intRange lo hi ↔ lo ≤ i ∧ i ≤ hi := by
  unfold intRange
  simp only [List.mem_map, List.mem_range]
  constructor
  · rintro ⟨n, hn, rfl⟩; omega
  · intro h; exact ⟨(i - lo).toNat, by omega, by omega⟩

theorem foldl_insert_pair (f : Int → String) (l : List Int) : ∀ acc : KeySet × KeySet,
    l.foldl (fun a dy => (insert (f dy) a.1, insert (f dy) a.2)) acc =
      (acc.1 ∪ (l.map f).toFinset, acc.2 ∪ (l.map f).toFinset) := by
  induction l with
  | nil => intro acc; simp
  | cons a t ih =>
    intro acc
    rw [List.foldl_cons, ih]
    ext k <;> simp

theorem foldl_foldl_insert_pair (F : Int → Int → String) (l1 l2 : List Int) :
    ∀ acc : KeySet × KeySet,
    l1.foldl (fun a dx => l2.foldl (fun b dy => (insert (F dx dy) b.1, insert (F dx dy) b.2)) a)
        acc =
      (acc.1 ∪ (l1.flatMap (fun dx => l2.map (F dx))).toFinset,
       acc.2 ∪ (l1.flatMap (fun dx => l2.map (F dx))).toFinset) := by
  induction l1 with
  | nil => intro acc; simp
  | cons a t ih =>
    intro acc
    rw [List.foldl_cons, foldl_insert_pair, ih]
    ext k <;> simp

theorem stamp_eq (x y half : Int) (visited mazeState : KeySet) :
    RoomExpander.stamp x y half visited mazeState =
      (visited ∪ ((intRange (-half) half).flatMap (fun dx =>
          (intRange (-half) half).map (fun dy => getPosition (x + dx) (y + dy)))).toFinset,
       mazeState ∪ ((intRange (-half) half).flatMap (fun dx =>
          (intRange (-half) half).map (fun dy => getPosition (x + dx) (y + dy)))).toFinset) := by
  unfold RoomExpander.stamp
  exact foldl_foldl_insert_pair (fun dx dy => getPosition (x + dx) (y + dy)) _ _ (visited, mazeState)

theorem mem_square {x y half : Int} {k : String} :
    k ∈ ((intRange (-half) half).flatMap (fun dx =>
          (intRange (-half) half).map (fun dy => getPosition (x + dx) (y + dy)))).toFinset ↔
      ∃ i j : Int, (-half ≤ i ∧ i ≤ half) ∧ (-half ≤ j ∧ j ≤ half) ∧
        k = getPosition (x + i) (y + j) := by
  simp only [List.mem_toFinset, List.mem_flatMap, List.mem_map, mem_intRange]
  constructor
  · rintro ⟨i, hi, j, hj, rfl⟩; exact ⟨i, j, hi, hj, rfl⟩
  · rintro ⟨i, j, hi, hj, rfl⟩; exact ⟨i, hi, j, hj, rfl⟩

theorem mem_stamp_fst {x y half : Int} {visited mazeState : KeySet} {k : String} :
    k ∈ (RoomExpander.stamp x y half visited mazeState).1 ↔
      k ∈ visited ∨ ∃ i j : Int, (-half ≤ i ∧ i ≤ half) ∧ (-half ≤ j ∧ j ≤ half) ∧
        k = getPosition (x + i) (y + j) := by
  rw [stamp_eq, Finset.mem_union, mem_square]

theorem mem_stamp_snd {x y half : Int} {visited mazeState : KeySet} {k : String} :
    k ∈ (RoomExpander.stamp x y half visited mazeState).2 ↔
      k ∈ mazeState ∨ ∃ i j : Int, (-half ≤ i ∧ i ≤ half) ∧ (-half ≤ j ∧ j ≤ half) ∧
        k = getPosition (x + i) (y + j) := by
  rw [stamp_eq, Finset.mem_union, mem_square]

theorem applyMove_recorded (w : Walker) (m : KeySet) (d : Dir) :
    (w.applyMove m d).1.Recorded (w.applyMove m d).2 := by
  simp [Walker.applyMove, Walker.Recorded]

theorem applyMove_mono (w : Walker) (m : KeySet) (d : Dir) :
    w.visited ⊆ (w.applyMove m d).1.visited ∧ m ⊆ (w.applyMove m d).2 := by
  simp [Walker.applyMove]

/-- What one completed move does to the base fields and the shared set: either the shared
block `applyMove` for some displacement, or the stamp of a `RoomExpander`. -/
theorem AnyWalker.move_cases {fuel : Nat} {w w1 : AnyWalker} {m m1 : KeySet} {g g1 : Rng}
    (h : w.move fuel m g = .ok (w1, m1, g1)) :
    (∃ d, (w1.toWalker, m1) = w.toWalker.applyMove m d) ∨
    (∃ r r1 : RoomExpander, w = .room r ∧ w1 = .room r1 ∧ r1.roomSize = r.roomSize ∧
      ∃ dx dy : Int, r1.x = r.x + dx ∧ r1.y = r.y + dy ∧
        (r1.visited, m1) = RoomExpander.stamp r1.x r1.y (r.roomSize / 2) r.visited m) := by
  cases w with
  | random w =>
    simp only [AnyWalker.move, Except.ok.injEq, Prod.mk.injEq] at h
    obtain ⟨rfl, rfl, -⟩ := h
    exact Or.inl ⟨_, rfl⟩
  | weighted w =>
    simp only [AnyWalker.move, WeightedWalker.move] at h
    split at h
    · simp [Except.map] at h
    · simp only [Except.map, Except.ok.injEq, Prod.mk.injEq] at h
      obtain ⟨rfl, rfl, -⟩ := h
      exact Or.inl ⟨_, rfl⟩
  | corridor w =>
    simp only [AnyWalker.move, Except.ok.injEq, Prod.mk.injEq] at h
    obtain ⟨rfl, rfl, -⟩ := h
    exact Or.inl ⟨_, rfl⟩
  | room w =>
    simp only [AnyWalker.move, Except.ok.injEq, Prod.mk.injEq] at h
    obtain ⟨rfl, rfl, -⟩ := h
    exact Or.inr ⟨w, _, rfl, rfl, rfl, _, _, rfl, rfl, rfl⟩
  | zigzag w =>
    simp only [AnyWalker.move, Except.ok.injEq, Prod.mk.injEq] at h
    obtain ⟨rfl, rfl, -⟩ := h
    exact Or.inl ⟨_, rfl⟩
  | cluster w =>
    simp only [AnyWalker.move, ChaoticClusterWalker.move] at h
    split at h
    · simp [Except.map] at h
    · simp only [Except.map, Except.ok.injEq, Prod.mk.injEq] at h
      obtain ⟨rfl, rfl, -⟩ := h
      exact Or.inl ⟨_, rfl⟩
  | spiral w =>
    simp only [AnyWalker.move, Except.ok.injEq, Prod.mk.injEq] at h
    obtain ⟨rfl, rfl, -⟩ := h
    refine Or.inl ⟨SpiralWalker.directions.get ⟨w.directionIndex.val, w.directionIndex.isLt⟩, ?_⟩
    simp only [SpiralWalker.move, AnyWalker.toWalker]
    split <;> rfl
  | drunken w =>
    simp only [AnyWalker.move, Except.ok.injEq, Prod.mk.injEq] at h
    obtain ⟨rfl, rfl, -⟩ := h
    exact Or.inl ⟨_, rfl⟩
  | hugger w =>
    simp only [AnyWalker.move, Except.ok.injEq, Prod.mk.injEq] at h
    obtain ⟨rfl, rfl, -⟩ := h
    exact Or.inl ⟨_, rfl⟩

theorem Walker.Recorded.mono {w : Walker} {m m1 : KeySet} (h : w.Recorded m) (hm : m ⊆ m1) :
    w.Recorded m1 := ⟨h.1, hm h.2⟩

theorem AnyWalker.move_recorded {fuel : Nat} {w w1 : AnyWalker} {m m1 : KeySet} {g g1 : Rng}
    (hr : w.RoomSizeOk) (h : w.move fuel m g = .ok (w1, m1, g1)) : w1.toWalker.Recorded m1 := by
  rcases AnyWalker.move_cases h with ⟨d, hd⟩ | ⟨r, r1, rfl, rfl, -, dx, dy, -, -, hs⟩
  · have := applyMove_recorded w.toWalker m d
    rw [← hd] at this
    exact this
  · have hr0 : 0 ≤ r.roomSize := hr
    have h1 := congrArg Prod.fst hs
    have h2 := congrArg Prod.snd hs
    simp only at h1 h2
    have hsq : ∃ i j : Int, (-(r.roomSize / 2) ≤ i ∧ i ≤ r.roomSize / 2) ∧
        (-(r.roomSize / 2) ≤ j ∧ j ≤ r.roomSize / 2) ∧
        getPosition r1.x r1.y = getPosition (r1.x + i) (r1.y + j) :=
      ⟨0, 0, by omega, by omega, by simp⟩
    refine ⟨?_, ?_⟩
    · show getPosition r1.x r1.y ∈ r1.visited
      rw [h1, mem_stamp_fst]; exact Or.inr hsq
    · show getPosition r1.x r1.y ∈ m1
      rw [h2, mem_stamp_snd]; exact Or.inr hsq

theorem AnyWalker.move_mono {fuel : Nat} {w w1 : AnyWalker} {m m1 : KeySet} {g g1 : Rng}
    (h : w.move fuel m g = .ok (w1, m1, g1)) :
    m ⊆ m1 ∧ w.toWalker.visited ⊆ w1.toWalker.visited := by
  rcases AnyWalker.move_cases h with ⟨d, hd⟩ | ⟨r, r1, rfl, rfl, -, dx, dy, -, -, hs⟩
  · have := applyMove_mono w.toWalker m d
    rw [← hd] at this
    exact ⟨this.2, this.1⟩
  · have h1 := congrArg Prod.fst hs
    have h2 := congrArg Prod.snd hs
    simp only at h1 h2
    refine ⟨fun k hk => ?_, fun k hk => ?_⟩
    · rw [h2, mem_stamp_snd]; exact Or.inl hk
    · show k ∈ r1.visited
      rw [h1, mem_stamp_fst]; exact Or.inl hk

theorem AnyWalker.move_roomSizeOk {fuel : Nat} {w w1 : AnyWalker} {m m1 : KeySet} {g g1 : Rng}
    (hr : w.RoomSizeOk) (h : w.move fuel m g = .ok (w1, m1, g1)) : w1.RoomSizeOk := by
  cases w with
  | weighted w =>
    simp only [AnyWalker.move, WeightedWalker.move] at h
    split at h
    · simp [Except.map] at h
    · simp only [Except.map, Except.ok.injEq, Prod.mk.injEq] at h
      obtain ⟨rfl, -⟩ := h
      trivial
  | cluster w =>
    simp only [AnyWalker.move, ChaoticClusterWalker.move] at h
    split at h
    · simp [Except.map] at h
    · simp only [Except.map, Except.ok.injEq, Prod.mk.injEq] at h
      obtain ⟨rfl, -⟩ := h
      trivial
  | room w =>
    simp only [AnyWalker.move, Except.ok.injEq, Prod.mk.injEq] at h
    obtain ⟨rfl, -⟩ := h
    exact hr
  | _ =>
    simp only [AnyWalker.move, Except.ok.injEq, Prod.mk.injEq] at h
    obtain ⟨rfl, -⟩ := h
    trivial

theorem grows_trans : ∀ {l1 l2 l3 : List AnyWalker}, List.Forall₂ AnyWalker.Grows l1 l2 →
    List.Forall₂ AnyWalker.Grows l2 l3 → List.Forall₂ AnyWalker.Grows l1 l3 := by
  intro l1 l2 l3 h12
  induction h12 generalizing l3 with
  | nil => intro h; cases h; exact List.Forall₂.nil
  | cons hab _ ih =>
    intro h
    cases h with
    | cons hbc hrest => exact List.Forall₂.cons (Finset.Subset.trans hab hbc) (ih hrest)

/-- One tick never shrinks the shared set or any walker's own set. -/
theorem moveWalkers_mono (fuel : Nat) : ∀ (ws : List AnyWalker) (m : KeySet) (g : Rng),
    m ⊆ (moveWalkers fuel ws m g).mazeState ∧
    List.Forall₂ AnyWalker.Grows ws (moveWalkers fuel ws m g).walkers := by
  intro ws
  induction ws with
  | nil => intro m g; exact ⟨Finset.Subset.refl _, List.Forall₂.nil⟩
  | cons w ws ih =>
    intro m g
    unfold moveWalkers
    cases hmv : w.move fuel m g with
    | error e =>
      exact ⟨Finset.Subset.refl _,
        List.forall₂_same.2 (fun _ _ => Finset.Subset.refl _)⟩
    | ok r =>
      obtain ⟨w1, m1, g1⟩ := r
      obtain ⟨hm, hv⟩ := AnyWalker.move_mono hmv
      obtain ⟨ihm, ihv⟩ := ih m1 g1
      exact ⟨hm.trans ihm, List.Forall₂.cons hv ihv⟩

theorem expandMaze_succ (fuel n : Nat) (ws : List AnyWalker) (m : KeySet) (g : Rng) :
    expandMaze fuel (n + 1) ws m g =
      match (moveWalkers fuel ws m g).failure with
      | some e => ⟨(moveWalkers fuel ws m g).walkers, (moveWalkers fuel ws m g).mazeState,
          (moveWalkers fuel ws m g).rng, some e⟩
      | none => expandMaze fuel n (moveWalkers fuel ws m g).walkers
          (moveWalkers fuel ws m g).mazeState (moveWalkers fuel ws m g).rng := rfl

theorem expandMaze_mono (fuel : Nat) : ∀ (n : Nat) (ws : List AnyWalker) (m : KeySet) (g : Rng),
    m ⊆ (expandMaze fuel n ws m g).mazeState ∧
    List.Forall₂ AnyWalker.Grows ws (expandMaze fuel n ws m g).walkers := by
  intro n
  induction n with
  | zero =>
    intro ws m g
    exact ⟨Finset.Subset.refl _, List.forall₂_same.2 (fun _ _ => Finset.Subset.refl _)⟩
  | succ n ih =>
    intro ws m g
    obtain ⟨hm, hv⟩ := moveWalkers_mono fuel ws m g
    rw [expandMaze_succ]
    cases hf : (moveWalkers fuel ws m g).failure with
    | some e => exact ⟨hm, hv⟩
    | none =>
      obtain ⟨ihm, ihv⟩ := ih (moveWalkers fuel ws m g).walkers (moveWalkers fuel ws m g).mazeState
        (moveWalkers fuel ws m g).rng
      exact ⟨hm.trans ihm, grows_trans hv ihv⟩

/-- One tick keeps every walker recorded, when every `roomSize` is non-negative. -/
theorem moveWalkers_recorded (fuel : Nat) : ∀ (ws : List AnyWalker) (m : KeySet) (g : Rng),
    (∀ w ∈ ws, w.RoomSizeOk ∧ w.toWalker.Recorded m) →
    ∀ w ∈ (moveWalkers fuel ws m g).walkers,
      w.RoomSizeOk ∧ w.toWalker.Recorded (moveWalkers fuel ws m g).mazeState := by
  intro ws
  induction ws with
  | nil => intro m g _ w hw; simp [moveWalkers] at hw
  | cons w0 ws ih =>
    intro m g hall
    unfold moveWalkers
    cases hmv : w0.move fuel m g with
    | error e => exact hall
    | ok r =>
      obtain ⟨w1, m1, g1⟩ := r
      have h0 := hall w0 (List.mem_cons_self _ _)
      have hm := (AnyWalker.move_mono hmv).1
      have htail : ∀ w ∈ ws, w.RoomSizeOk ∧ w.toWalker.Recorded m1 :=
        fun w hw => ⟨(hall w (List.mem_cons_of_mem _ hw)).1,
          (hall w (List.mem_cons_of_mem _ hw)).2.mono hm⟩
      intro w hw
      rcases List.mem_cons.1 hw with rfl | hw
      · exact ⟨AnyWalker.move_roomSizeOk h0.1 hmv,
          (AnyWalker.move_recorded h0.1 hmv).mono (moveWalkers_mono fuel ws m1 g1).1⟩
      · exact ih m1 g1 htail w hw

theorem expandMaze_recorded (fuel : Nat) : ∀ (n : Nat) (ws : List AnyWalker) (m : KeySet)
    (g : Rng), (∀ w ∈ ws, w.RoomSizeOk ∧ w.toWalker.Recorded m) →
    ∀ w ∈ (expandMaze fuel n ws m g).walkers,
      w.RoomSizeOk ∧ w.toWalker.Recorded (expandMaze fuel n ws m g).mazeState := by
  intro n
  induction n with
  | zero => intro ws m g hall; exact hall
  | succ n ih =>
    intro ws m g hall
    have h1 := moveWalkers_recorded fuel ws m g hall
    rw [expandMaze_succ]
    cases hf : (moveWalkers fuel ws m g).failure with
    | some e => exact h1
    | none => exact ih _ _ _ h1

theorem walker_new_ok {x y : Int} {name color : String} {a : MazeArg} {b : Walker} {s : KeySet}
    (h : Walker.new x y name color a = .ok (b, s)) :
    ∃ s0, a = .set s0 ∧ s = insert (getPosition x y) s0 ∧
      b = ⟨x, y, name, color, {getPosition x y}⟩ := by
  cases a with
  | set s0 =>
    simp only [Walker.new, Except.ok.injEq, Prod.mk.injEq] at h
    exact ⟨s0, rfl, h.2.symm, h.1.symm⟩
  | _ => simp [Walker.new] at h

/-- What a successful constructor call of any class returns. -/
theorem anyWalker_new_ok {c : Config} {x y : Int} {a : MazeArg} {w : AnyWalker} {s : KeySet}
    (h : AnyWalker.new c x y a = .ok (w, s)) :
    ∃ s0, a = .set s0 ∧ s = insert (getPosition x y) s0 ∧
      w.toWalker.x = x ∧ w.toWalker.y = y ∧ w.toWalker.visited = {getPosition x y} := by
  cases a with
  | set s0 =>
    refine ⟨s0, rfl, ?_⟩
    cases c <;>
      simp only [AnyWalker.new, RandomWalker.new, WeightedWalker.new, CorridorWalker.new,
        RoomExpander.new, ZigZagWalker.new, ChaoticClusterWalker.new, SpiralWalker.new,
        DrunkenWalker.new, WallHuggerWalker.new, Walker.new, Except.map, Except.ok.injEq,
        Prod.mk.injEq] at h <;>
      obtain ⟨rfl, rfl⟩ := h <;>
      exact ⟨rfl, rfl, rfl, rfl⟩
  | _ =>
    cases c <;>
      simp [AnyWalker.new, RandomWalker.new, WeightedWalker.new, CorridorWalker.new,
        RoomExpander.new, ZigZagWalker.new, ChaoticClusterWalker.new, SpiralWalker.new,
        DrunkenWalker.new, WallHuggerWalker.new, Walker.new, Except.map] at h

/-! ## C1 and C2: the position is recorded, nothing is removed -/


/-- C1 (amended): the key of the position of a walker of any of the nine classes is in its
own `visited` set and in the shared set right after construction (whatever the
parameters), after every completed `move()` and after any number of ticks of a list of
walkers, provided that the `roomSize` of a `RoomExpander` is not negative. -/
theorem position_recorded :
    (∀ (c : Config) (x y : Int) (a : MazeArg) (w : AnyWalker) (s : KeySet),
      AnyWalker.new c x y a = .ok (w, s) → w.toWalker.Recorded s) ∧
    (∀ (fuel : Nat) (w w1 : AnyWalker) (m m1 : KeySet) (g g1 : Rng),
      w.RoomSizeOk → w.move fuel m g = .ok (w1, m1, g1) → w1.toWalker.Recorded m1) ∧
    (∀ (fuel n : Nat) (ws : List AnyWalker) (m : KeySet) (g : Rng),
      (∀ w ∈ ws, w.RoomSizeOk ∧ w.toWalker.Recorded m) →
      ∀ w ∈ (expandMaze fuel n ws m g).walkers,
        w.toWalker.Recorded (expandMaze fuel n ws m g).mazeState) := by
  refine ⟨?_, ?_, ?_⟩
  · intro c x y a w s h
    obtain ⟨s0, -, rfl, hx, hy, hv⟩ := anyWalker_new_ok h
    unfold Walker.Recorded
    rw [hx, hy, hv]
    simp
  · intro fuel w w1 m m1 g g1 hr h
    exact AnyWalker.move_recorded hr h
  · intro fuel n ws m g hall w hw
    exact (expandMaze_recorded fuel n ws m g hall w hw).2

/-- Witness of C1: a `RoomExpander` with `roomSize` 5 built at (0,0) on the empty set
and moved once with both draws 2/3. -/
theorem position_recorded_witness :
    AnyWalker.new (.room none (some 5)) 0 0 (.set ∅) =
      .ok (.room ⟨⟨0, 0, "O", "purple", {"0,0"}⟩, 5, 0⟩, {"0,0"}) ∧
    (AnyWalker.room ⟨⟨0, 0, "O", "purple", {"0,0"}⟩, 5, 0⟩).RoomSizeOk ∧
    ((RoomExpander.move ⟨⟨0, 0, "O", "purple", {"0,0"}⟩, 5, 0⟩ {"0,0"}
        (Rng.const ⟨2, 3, by decide⟩)).1.toWalker).Recorded
      (RoomExpander.move ⟨⟨0, 0, "O", "purple", {"0,0"}⟩, 5, 0⟩ {"0,0"}
        (Rng.const ⟨2, 3, by decide⟩)).2.1 :=
  ⟨rfl, by simp [AnyWalker.RoomSizeOk],
    position_recorded.2.1 0 (.room ⟨⟨0, 0, "O", "purple", {"0,0"}⟩, 5, 0⟩) _ {"0,0"} _
      (Rng.const ⟨2, 3, by decide⟩) _ (by simp [AnyWalker.RoomSizeOk]) rfl⟩

/-- Counterexample to C1 as stated: a `RoomExpander` built at (0,0) with `roomSize` -1 and
moved once with both draws 2/3 stands at (1,1), and the loops of the stamp, which run from
1 to -1, have added nothing: its `visited` set and the shared set are still {"0,0"}. -/
theorem position_unrecorded_negative_roomSize :
    RoomExpander.new 0 0 (.set ∅) none (some (-1)) =
      .ok (⟨⟨0, 0, "O", "purple", {"0,0"}⟩, -1, 0⟩, {"0,0"}) ∧
    (RoomExpander.move ⟨⟨0, 0, "O", "purple", {"0,0"}⟩, -1, 0⟩ {"0,0"}
      (Rng.const ⟨2, 3, by decide⟩)).1.x = 1 ∧
    (RoomExpander.move ⟨⟨0, 0, "O", "purple", {"0,0"}⟩, -1, 0⟩ {"0,0"}
      (Rng.const ⟨2, 3, by decide⟩)).1.y = 1 ∧
    (RoomExpander.move ⟨⟨0, 0, "O", "purple", {"0,0"}⟩, -1, 0⟩ {"0,0"}
      (Rng.const ⟨2, 3, by decide⟩)).1.visited = {"0,0"} ∧
    (RoomExpander.move ⟨⟨0, 0, "O", "purple", {"0,0"}⟩, -1, 0⟩ {"0,0"}
      (Rng.const ⟨2, 3, by decide⟩)).2.1 = {"0,0"} ∧
    ¬ ((RoomExpander.move ⟨⟨0, 0, "O", "purple", {"0,0"}⟩, -1, 0⟩ {"0,0"}
        (Rng.const ⟨2, 3, by decide⟩)).1.toWalker).Recorded
      (RoomExpander.move ⟨⟨0, 0, "O", "purple", {"0,0"}⟩, -1, 0⟩ {"0,0"}
        (Rng.const ⟨2, 3, by decide⟩)).2.1 := by
  refine ⟨rfl, by decide, by decide, by decide, by decide, ?_⟩
  intro h
  exact absurd h.1 (by decide)

/-- C2: a completed `move()` of a walker of any class removes no key: the shared set and
the walker's own set after the move contain those before it; hence over any number of
ticks of any list of walkers, completed or cut short by a failure, the shared set and
every walker's own set only grow and their sizes do not decrease. -/
theorem never_removes :
    (∀ (fuel : Nat) (w w1 : AnyWalker) (m m1 : KeySet) (g g1 : Rng),
      w.move fuel m g = .ok (w1, m1, g1) →
      m ⊆ m1 ∧ w.toWalker.visited ⊆ w1.toWalker.visited ∧
      m.card ≤ m1.card ∧ w.toWalker.visited.card ≤ w1.toWalker.visited.card) ∧
    (∀ (fuel n : Nat) (ws : List AnyWalker) (m : KeySet) (g : Rng),
      m ⊆ (expandMaze fuel n ws m g).mazeState ∧
      m.card ≤ (expandMaze fuel n ws m g).mazeState.card ∧
      List.Forall₂
        (fun w w1 : AnyWalker => w.toWalker.visited ⊆ w1.toWalker.visited ∧
          w.toWalker.visited.card ≤ w1.toWalker.visited.card)
        ws (expandMaze fuel n ws m g).walkers) := by
  refine ⟨?_, ?_⟩
  · intro fuel w w1 m m1 g g1 h
    obtain ⟨hm, hv⟩ := AnyWalker.move_mono h
    exact ⟨hm, hv, Finset.card_le_card hm, Finset.card_le_card hv⟩
  · intro fuel n ws m g
    obtain ⟨hm, hv⟩ := expandMaze_mono fuel n ws m g
    exact ⟨hm, Finset.card_le_card hm,
      hv.imp (fun _ _ hab => ⟨hab, Finset.card_le_card hab⟩)⟩

/-- Witness of C2: a `DrunkenWalker` at (0,0) moved once with every draw 2/3. -/
theorem never_removes_witness :
    ({"0,0"} : KeySet) ⊆
      (DrunkenWalker.move ⟨⟨0, 0, "D", "brown", {"0,0"}⟩, none⟩ {"0,0"}
        (Rng.const ⟨2, 3, by decide⟩)).2.1 ∧
    (DrunkenWalker.move ⟨⟨0, 0, "D", "brown", {"0,0"}⟩, none⟩ {"0,0"}
        (Rng.const ⟨2, 3, by decide⟩)).2.1 = {"-1,0", "0,0"} :=
  ⟨(never_removes.1 0 (.drunken ⟨⟨0, 0, "D", "brown", {"0,0"}⟩, none⟩) _ {"0,0"} _
      (Rng.const ⟨2, 3, by decide⟩) _ rfl).1, by decide⟩

/-! ## C3 and C4: the spiral -/

theorem spiral_move_pos (w : SpiralWalker) (m : KeySet) :
    (w.move m).1.x =
      w.x + (SpiralWalker.directions.get ⟨w.directionIndex.val, w.directionIndex.isLt⟩).dx ∧
    (w.move m).1.y =
      w.y + (SpiralWalker.directions.get ⟨w.directionIndex.val, w.directionIndex.isLt⟩).dy := by
  unfold SpiralWalker.move
  simp only
  split <;> exact ⟨rfl, rfl⟩

theorem spiral_move_ctrl (w : SpiralWalker) (m : KeySet) :
    (w.stepsTaken + 1 < w.stepSize →
      (w.move m).1.stepsTaken = w.stepsTaken + 1 ∧ (w.move m).1.stepSize = w.stepSize ∧
      (w.move m).1.directionIndex = w.directionIndex) ∧
    (w.stepSize ≤ w.stepsTaken + 1 →
      (w.move m).1.stepsTaken = 0 ∧
      (w.move m).1.directionIndex.val = (w.directionIndex.val + 1) % 4 ∧
      (w.move m).1.stepSize =
        if (w.directionIndex.val + 1) % 4 % 2 = 0 then w.stepSize + 1 else w.stepSize) := by
  unfold SpiralWalker.move
  simp only
  refine ⟨fun h => ?_, fun h => ?_⟩
  · rw [if_neg (by omega)]; exact ⟨rfl, rfl, rfl⟩
  · rw [if_pos (by omega)]; exact ⟨rfl, rfl, rfl⟩

theorem spiral_move_sets (w : SpiralWalker) (m : KeySet) :
    (w.move m).1.visited = insert (getPosition (w.move m).1.x (w.move m).1.y) w.visited ∧
    (w.move m).2 = insert (getPosition (w.move m).1.x (w.move m).1.y) m := by
  unfold SpiralWalker.move
  simp only
  split <;> exact ⟨rfl, rfl⟩

/-- The keys of the positions of a `SpiralWalker` after its 1st to `n`-th move. -/
theorem spiral_run_sets (w : SpiralWalker) (m : KeySet) : ∀ n : Nat,
    (SpiralWalker.run n w m).1.visited = w.visited ∪ ((List.range n).map (fun i =>
      getPosition (SpiralWalker.run (i + 1) w m).1.x
        (SpiralWalker.run (i + 1) w m).1.y)).toFinset ∧
    (SpiralWalker.run n w m).2 = m ∪ ((List.range n).map (fun i =>
      getPosition (SpiralWalker.run (i + 1) w m).1.x
        (SpiralWalker.run (i + 1) w m).1.y)).toFinset := by
  intro n
  induction n with
  | zero => simp [SpiralWalker.run]
  | succ n ih =>
    have hs := spiral_move_sets (SpiralWalker.run n w m).1 (SpiralWalker.run n w m).2
    have he : SpiralWalker.run (n + 1) w m =
        (SpiralWalker.run n w m).1.move (SpiralWalker.run n w m).2 := rfl
    rw [← he] at hs
    rw [hs.1, hs.2, ih.1, ih.2, List.range_succ, List.map_append, List.toFinset_append]
    constructor <;>
      (ext k
       simp only [Finset.mem_insert, Finset.mem_union, List.map_cons, List.map_nil,
         List.toFinset_cons, List.toFinset_nil, Finset.mem_singleton, insert_emptyc_eq]
       tauto)

theorem spiral_move_ctrl_congr {w w1 : SpiralWalker} (m m1 : KeySet) (h : w.ctrl = w1.ctrl) :
    (w.move m).1.ctrl = (w1.move m1).1.ctrl := by
  obtain ⟨⟨x, y, nm, c, v⟩, ss, st, di⟩ := w
  obtain ⟨⟨x1, y1, nm1, c1, v1⟩, ss1, st1, di1⟩ := w1
  simp only [SpiralWalker.ctrl, Prod.mk.injEq] at h
  obtain ⟨rfl, rfl, rfl, rfl, rfl⟩ := h
  simp only [SpiralWalker.move, SpiralWalker.ctrl, Walker.applyMove]
  split <;> rfl

theorem spiral_run_ctrl_congr {w w1 : SpiralWalker} (m m1 : KeySet) (h : w.ctrl = w1.ctrl) :
    ∀ n : Nat, (SpiralWalker.run n w m).1.ctrl = (SpiralWalker.run n w1 m1).1.ctrl := by
  intro n
  induction n with
  | zero => exact h
  | succ n ih => exact spiral_move_ctrl_congr _ _ ih

/-- The first ten positions of a spiral that starts at (0,0) in the state the constructor
sets up, and their keys. -/
theorem spiral_ten_positions (w : SpiralWalker) (m : KeySet) (h : w.ctrl = (0, 0, 1, 0, 0)) :
    (List.range 10).map (fun i =>
        ((SpiralWalker.run (i + 1) w m).1.x, (SpiralWalker.run (i + 1) w m).1.y)) =
      [(1, 0), (1, 1), (0, 1), (-1, 1), (-1, 0), (-1, -1), (0, -1), (1, -1), (2, -1),
        (2, 0)] ∧
    (List.range 10).map (fun i =>
        getPosition (SpiralWalker.run (i + 1) w m).1.x (SpiralWalker.run (i + 1) w m).1.y) =
      ["1,0", "1,1", "0,1", "-1,1", "-1,0", "-1,-1", "0,-1", "1,-1", "2,-1", "2,0"] := by
  have hc : ∀ n : Nat, (SpiralWalker.run n w m).1.ctrl =
      (SpiralWalker.run n (⟨⟨0, 0, "", "", ∅⟩, 1, 0, 0⟩ : SpiralWalker) ∅).1.ctrl :=
    spiral_run_ctrl_congr _ _ h
  have hx : ∀ v : SpiralWalker, v.x = v.ctrl.1 := fun _ => rfl
  have hy : ∀ v : SpiralWalker, v.y = v.ctrl.2.1 := fun _ => rfl
  simp only [hx, hy, hc]
  constructor <;> decide

/-- C3: a `SpiralWalker` constructed at (0,0), on any shared set and with any colour, stands
after its 1st to 10th `move()` on (1,0), (1,1), (0,1), (-1,1), (-1,0), (-1,-1), (0,-1),
(1,-1), (2,-1), (2,0) in this order; `move()` takes no random draw. After the ten moves its
own set holds the keys of (0,0) and of these ten cells and nothing else, and the shared
set has gained exactly these eleven keys. -/
theorem spiral_first_ten (mazeState : KeySet) (color : Option String) :
    ∃ (w : SpiralWalker) (s : KeySet),
      SpiralWalker.new 0 0 (.set mazeState) color = .ok (w, s) ∧
      (List.range 10).map (fun i =>
          ((SpiralWalker.run (i + 1) w s).1.x, (SpiralWalker.run (i + 1) w s).1.y)) =
        [(1, 0), (1, 1), (0, 1), (-1, 1), (-1, 0), (-1, -1), (0, -1), (1, -1), (2, -1),
          (2, 0)] ∧
      (SpiralWalker.run 10 w s).1.visited =
        {"0,0", "1,0", "1,1", "0,1", "-1,1", "-1,0", "-1,-1", "0,-1", "1,-1", "2,-1",
          "2,0"} ∧
      (SpiralWalker.run 10 w s).2 = mazeState ∪
        {"0,0", "1,0", "1,1", "0,1", "-1,1", "-1,0", "-1,-1", "0,-1", "1,-1", "2,-1",
          "2,0"} := by
  have hkeys := (spiral_ten_positions
    (⟨⟨0, 0, "S", color.getD "cyan", insert (getPosition 0 0) ∅⟩, 1, 0, 0⟩ : SpiralWalker)
    (insert (getPosition 0 0) mazeState) rfl)
  have h0 : getPosition 0 0 = "0,0" := by decide
  have hsets := spiral_run_sets
    (⟨⟨0, 0, "S", color.getD "cyan", insert (getPosition 0 0) ∅⟩, 1, 0, 0⟩ : SpiralWalker)
    (insert (getPosition 0 0) mazeState) 10
  rw [hkeys.2, h0] at hsets
  refine ⟨_, _, rfl, hkeys.1, ?_, ?_⟩
  · rw [h0, hsets.1]
    ext k
    simp only [Finset.mem_union, Finset.mem_insert, Finset.mem_singleton, List.toFinset_cons,
      List.toFinset_nil, insert_emptyc_eq]
  · rw [h0, hsets.2]
    ext k
    simp only [Finset.mem_union, Finset.mem_insert, Finset.mem_singleton, List.toFinset_cons,
      List.toFinset_nil, insert_emptyc_eq, or_assoc, or_left_comm]

theorem spiral_run_succ (n : Nat) (w : SpiralWalker) (m : KeySet) :
    SpiralWalker.run (n + 1) w m =
      (SpiralWalker.run n w m).1.move (SpiralWalker.run n w m).2 := rfl

/-- Control state of the spiral at move `i` of leg `k`. -/
theorem spiral_leg_state (w : SpiralWalker) (m : KeySet)
    (h0 : w.directionIndex.val = 0 ∧ w.stepSize = 1 ∧ w.stepsTaken = 0) :
    ∀ k i : Nat, i ≤ k / 2 →
      (SpiralWalker.run (legStart k + i) w m).1.directionIndex.val = k % 4 ∧
      (SpiralWalker.run (legStart k + i) w m).1.stepSize = k / 2 + 1 ∧
      (SpiralWalker.run (legStart k + i) w m).1.stepsTaken = i := by
  have step : ∀ (k i : Nat),
      ((SpiralWalker.run (legStart k + i) w m).1.directionIndex.val = k % 4 ∧
        (SpiralWalker.run (legStart k + i) w m).1.stepSize = k / 2 + 1 ∧
        (SpiralWalker.run (legStart k + i) w m).1.stepsTaken = i) →
      i + 1 ≤ k / 2 →
      ((SpiralWalker.run (legStart k + (i + 1)) w m).1.directionIndex.val = k % 4 ∧
        (SpiralWalker.run (legStart k + (i + 1)) w m).1.stepSize = k / 2 + 1 ∧
        (SpiralWalker.run (legStart k + (i + 1)) w m).1.stepsTaken = i + 1) := by
    intro k i ⟨hd, hs, ht⟩ hi
    rw [← Nat.add_assoc, spiral_run_succ]
    obtain ⟨h1, h2, h3⟩ := (spiral_move_ctrl (SpiralWalker.run (legStart k + i) w m).1
      (SpiralWalker.run (legStart k + i) w m).2).1 (by omega)
    rw [h1, h2, h3]
    exact ⟨hd, hs, by omega⟩
  intro k
  induction k with
  | zero =>
    intro i hi
    have : i = 0 := by omega
    subst this
    exact h0
  | succ k ih =>
    intro i hi
    induction i with
    | zero =>
      obtain ⟨hd, hs, ht⟩ := ih (k / 2) (Nat.le_refl _)
      have he : legStart (k + 1) + 0 = (legStart k + k / 2) + 1 := by
        simp only [legStart]; omega
      rw [he, spiral_run_succ]
      obtain ⟨h1, h2, h3⟩ := (spiral_move_ctrl (SpiralWalker.run (legStart k + k / 2) w m).1
        (SpiralWalker.run (legStart k + k / 2) w m).2).2 (by omega)
      rw [h1, h2, h3, hd, hs]
      refine ⟨by omega, ?_, rfl⟩
      split <;> omega
    | succ i ihi => exact step (k + 1) i (ihi (by omega)) hi

/-- Displacement of move `i` of leg `k`. -/
theorem spiral_leg_shift (w : SpiralWalker) (m : KeySet)
    (h0 : w.directionIndex.val = 0 ∧ w.stepSize = 1 ∧ w.stepsTaken = 0) :
    ∀ k i : Nat, i ≤ k / 2 →
      (SpiralWalker.run (legStart k + i + 1) w m).1.x =
        (SpiralWalker.run (legStart k + i) w m).1.x +
          (SpiralWalker.directions.get ⟨k % 4, Nat.mod_lt k (by decide)⟩).dx ∧
      (SpiralWalker.run (legStart k + i + 1) w m).1.y =
        (SpiralWalker.run (legStart k + i) w m).1.y +
          (SpiralWalker.directions.get ⟨k % 4, Nat.mod_lt k (by decide)⟩).dy := by
  intro k i hi
  obtain ⟨hd, -, -⟩ := spiral_leg_state w m h0 k i hi
  rw [spiral_run_succ]
  have hp := spiral_move_pos (SpiralWalker.run (legStart k + i) w m).1
    (SpiralWalker.run (legStart k + i) w m).2
  have hfin : (⟨(SpiralWalker.run (legStart k + i) w m).1.directionIndex.val,
      (SpiralWalker.run (legStart k + i) w m).1.directionIndex.isLt⟩ :
        Fin SpiralWalker.directions.length) = ⟨k % 4, Nat.mod_lt k (by decide)⟩ :=
    Fin.ext hd
  rw [hfin] at hp
  exact hp

theorem legStart_cover : ∀ n : Nat, ∃ k i : Nat, i ≤ k / 2 ∧ n = legStart k + i := by
  intro n
  induction n with
  | zero => exact ⟨0, 0, Nat.le_refl _, rfl⟩
  | succ n ih =>
    obtain ⟨k, i, hi, rfl⟩ := ih
    by_cases h : i + 1 ≤ k / 2
    · exact ⟨k, i + 1, h, rfl⟩
    · exact ⟨k + 1, 0, Nat.zero_le _, by simp only [legStart]; omega⟩

/-- C4: for a `SpiralWalker` constructed at any (x0,y0), number the moves 0, 1, 2, ... and
let `legStart k` be the sum of `floor(j/2) + 1` over `j < k`. Move `legStart k + i` with
`i <= floor(k/2)` (move `i` of leg `k`) is made with `directionIndex = k mod 4`, run-length
target `stepSize = floor(k/2) + 1` and `stepsTaken = i`, and shifts the position by entry
`k mod 4` of (1,0), (0,1), (-1,0), (0,-1); every move lies in such a leg, so leg `k` is
exactly `floor(k/2) + 1` consecutive moves and the targets are 1,1,2,2,3,3,... Moreover, in
any state, `move()` adds 1 to `stepSize` exactly when it changes `directionIndex` to an even
value, and leaves `stepSize` unchanged otherwise. -/
theorem spiral_legs (x0 y0 : Int) (mazeState : KeySet) (color : Option String) :
    ∃ (w : SpiralWalker) (s : KeySet),
      SpiralWalker.new x0 y0 (.set mazeState) color = .ok (w, s) ∧
      (∀ k i : Nat, i ≤ k / 2 →
        (SpiralWalker.run (legStart k + i) w s).1.directionIndex.val = k % 4 ∧
        (SpiralWalker.run (legStart k + i) w s).1.stepSize = k / 2 + 1 ∧
        (SpiralWalker.run (legStart k + i) w s).1.stepsTaken = i ∧
        (SpiralWalker.run (legStart k + i + 1) w s).1.x =
          (SpiralWalker.run (legStart k + i) w s).1.x +
            (SpiralWalker.directions.get ⟨k % 4, Nat.mod_lt k (by decide)⟩).dx ∧
        (SpiralWalker.run (legStart k + i + 1) w s).1.y =
          (SpiralWalker.run (legStart k + i) w s).1.y +
            (SpiralWalker.directions.get ⟨k % 4, Nat.mod_lt k (by decide)⟩).dy) ∧
      (∀ n : Nat, ∃ k i : Nat, i ≤ k / 2 ∧ n = legStart k + i) ∧
      (∀ (v : SpiralWalker) (m : KeySet),
        (v.move m).1.stepSize =
          if (v.move m).1.directionIndex ≠ v.directionIndex ∧
              (v.move m).1.directionIndex.val % 2 = 0
          then v.stepSize + 1 else v.stepSize) := by
  refine ⟨_, _, rfl, ?_, legStart_cover, ?_⟩
  · intro k i hi
    obtain ⟨hd, hs, ht⟩ := spiral_leg_state
      (⟨⟨x0, y0, "S", color.getD "cyan", insert (getPosition x0 y0) ∅⟩, 1, 0, 0⟩ : SpiralWalker)
      (insert (getPosition x0 y0) mazeState) ⟨rfl, rfl, rfl⟩ k i hi
    obtain ⟨hx, hy⟩ := spiral_leg_shift
      (⟨⟨x0, y0, "S", color.getD "cyan", insert (getPosition x0 y0) ∅⟩, 1, 0, 0⟩ : SpiralWalker)
      (insert (getPosition x0 y0) mazeState) ⟨rfl, rfl, rfl⟩ k i hi
    exact ⟨hd, hs, ht, hx, hy⟩
  · intro v m
    by_cases hturn : v.stepSize ≤ v.stepsTaken + 1
    · obtain ⟨-, h2, h3⟩ := (spiral_move_ctrl v m).2 hturn
      have hne : (v.move m).1.directionIndex ≠ v.directionIndex := by
        intro h; have := congrArg Fin.val h; omega
      rw [h3]
      by_cases hev : (v.directionIndex.val + 1) % 4 % 2 = 0
      · rw [if_pos hev, if_pos ⟨hne, by rw [h2]; exact hev⟩]
      · rw [if_neg hev, if_neg (fun h => hev (by rw [← h2]; exact h.2))]
    · obtain ⟨-, h2, h3⟩ := (spiral_move_ctrl v m).1 (by omega)
      rw [h2, if_neg (fun h => h.1 h3)]

/-- Witness of C4: the spiral built at (0,0) on the empty set; leg 2 begins after 2 moves,
and its second move (move number 3) is made with `directionIndex` 2 and target 2. -/
theorem spiral_legs_witness :
    ∃ (w : SpiralWalker) (s : KeySet),
      SpiralWalker.new 0 0 (.set ∅) none = .ok (w, s) ∧ 1 ≤ 2 / 2 ∧
      (SpiralWalker.run (legStart 2 + 1) w s).1.directionIndex.val = 2 % 4 ∧
      (SpiralWalker.run (legStart 2 + 1) w s).1.stepSize = 2 / 2 + 1 := by
  obtain ⟨w, s, h, hl, -, -⟩ := spiral_legs 0 0 ∅ none
  exact ⟨w, s, h, by decide, (hl 2 1 (by decide)).1, (hl 2 1 (by decide)).2.1⟩

/-! ## C5: the cluster walker stays in its square -/

theorem cluster_sample_ok (w : ChaoticClusterWalker) : ∀ (fuel : Nat) (g g1 : Rng) (d : Dir),
    ChaoticClusterWalker.sample w fuel g = .ok (d, g1) →
    |w.x + d.dx - w.startX| ≤ w.clusterRadius ∧ |w.y + d.dy - w.startY| ≤ w.clusterRadius := by
  intro fuel
  induction fuel with
  | zero => intro g g1 d h; simp [ChaoticClusterWalker.sample] at h
  | succ fuel ih =>
    intro g g1 d h
    simp only [ChaoticClusterWalker.sample] at h
    split at h
    · exact ih _ _ _ h
    · rename_i hc
      simp only [Except.ok.injEq, Prod.mk.injEq] at h
      obtain ⟨rfl, -⟩ := h
      simp only [not_or, not_lt] at hc
      exact hc

theorem cluster_move_ok {fuel : Nat} {w w1 : ChaoticClusterWalker} {m m1 : KeySet} {g g1 : Rng}
    (h : w.move fuel m g = .ok (w1, m1, g1)) :
    w1.startX = w.startX ∧ w1.startY = w.startY ∧ w1.clusterRadius = w.clusterRadius ∧
    (|w1.x - w.startX| ≤ w.clusterRadius ∧ |w1.y - w.startY| ≤ w.clusterRadius) ∧
    w1.visited = insert (getPosition w1.x w1.y) w.visited ∧
    m1 = insert (getPosition w1.x w1.y) m := by
  simp only [ChaoticClusterWalker.move] at h
  split at h
  · simp at h
  · rename_i d g2 hs
    simp only [Except.ok.injEq, Prod.mk.injEq] at h
    obtain ⟨rfl, rfl, -⟩ := h
    exact ⟨rfl, rfl, rfl, cluster_sample_ok w _ _ _ _ hs, rfl, rfl⟩

theorem cluster_move_confined {fuel : Nat} {w w1 : ChaoticClusterWalker} {m m1 : KeySet}
    {g g1 : Rng} (hc : w.Confined) (h : w.move fuel m g = .ok (w1, m1, g1)) :
    w1.Confined ∧ w1.startX = w.startX ∧ w1.startY = w.startY ∧
      w1.clusterRadius = w.clusterRadius := by
  obtain ⟨hx, hy, hr, hpos, hv, -⟩ := cluster_move_ok h
  refine ⟨⟨?_, ?_⟩, hx, hy, hr⟩
  · rw [hx, hy, hr]; exact hpos
  · intro k hk
    rw [hx, hy, hr]
    rw [hv, Finset.mem_insert] at hk
    rcases hk with rfl | hk
    · exact ⟨w1.x, w1.y, rfl, hpos⟩
    · exact hc.2 k hk

theorem cluster_run_confined (fuel : Nat) {w : ChaoticClusterWalker} (hc : w.Confined) :
    ∀ (n : Nat) (m : KeySet) (g : Rng) (w1 : ChaoticClusterWalker) (m1 : KeySet) (g1 : Rng),
    ChaoticClusterWalker.run fuel n w m g = .ok (w1, m1, g1) →
    w1.Confined ∧ w1.startX = w.startX ∧ w1.startY = w.startY ∧
      w1.clusterRadius = w.clusterRadius := by
  intro n
  induction n with
  | zero =>
    intro m g w1 m1 g1 h
    simp only [ChaoticClusterWalker.run, Except.ok.injEq, Prod.mk.injEq] at h
    obtain ⟨rfl, -⟩ := h
    exact ⟨hc, rfl, rfl, rfl⟩
  | succ n ih =>
    intro m g w1 m1 g1 h
    simp only [ChaoticClusterWalker.run] at h
    split at h
    · simp at h
    · rename_i w2 m2 g2 hrun
      obtain ⟨hc2, hx, hy, hr⟩ := ih m g w2 m2 g2 hrun
      obtain ⟨hc1, hx1, hy1, hr1⟩ := cluster_move_confined hc2 h
      exact ⟨hc1, hx1.trans hx, hy1.trans hy, hr1.trans hr⟩

/-- C5: a `ChaoticClusterWalker` is constructed at (sx,sy) with a radius `R >= 0` (the
argument given, or the default 5). Whatever the draws, the loop bound and the number `n`
of moves, if the `n` moves complete then the walker's position satisfies
`|x - sx| <= R` and `|y - sy| <= R`, and so does every cell (x,y) whose key is in the
walker's `visited` set. -/
theorem cluster_confined (sx sy : Int) (mazeState : KeySet) (color : Option String)
    (radius : Option Int) (hR : 0 ≤ radius.getD 5) :
    ∃ (w : ChaoticClusterWalker) (s : KeySet),
      ChaoticClusterWalker.new sx sy (.set mazeState) color radius = .ok (w, s) ∧
      ∀ (fuel n : Nat) (g : Rng) (w1 : ChaoticClusterWalker) (m1 : KeySet) (g1 : Rng),
        ChaoticClusterWalker.run fuel n w s g = .ok (w1, m1, g1) →
        (|w1.x - sx| ≤ radius.getD 5 ∧ |w1.y - sy| ≤ radius.getD 5) ∧
        ∀ x y : Int, getPosition x y ∈ w1.visited →
          |x - sx| ≤ radius.getD 5 ∧ |y - sy| ≤ radius.getD 5 := by
  refine ⟨_, _, rfl, ?_⟩
  intro fuel n g w1 m1 g1 h
  have hc0 : (⟨⟨sx, sy, "C", color.getD "orange", insert (getPosition sx sy) ∅⟩, sx, sy,
      radius.getD 5⟩ : ChaoticClusterWalker).Confined := by
    refine ⟨by simpa using hR, ?_⟩
    intro k hk
    simp only [insert_emptyc_eq, Finset.mem_singleton] at hk
    exact ⟨sx, sy, hk, by simpa using hR⟩
  obtain ⟨hc, hx, hy, hr⟩ := cluster_run_confined fuel hc0 n _ g w1 m1 g1 h
  simp only at hx hy hr
  rw [← hx, ← hy, ← hr]
  refine ⟨hc.1, ?_⟩
  intro x y hxy
  obtain ⟨x1, y1, hk, hb⟩ := hc.2 _ hxy
  obtain ⟨rfl, rfl⟩ := getPosition_inj.1 hk
  exact hb

/-- Witness of C5: radius 5, start (0,0), three moves with every draw 2/3, which shift the
walker by (1,1) each time. -/
theorem cluster_confined_witness :
    (0 : Int) ≤ (some 5 : Option Int).getD 5 ∧
    ∃ (w : ChaoticClusterWalker) (s : KeySet) (r : ChaoticClusterWalker × KeySet × Rng),
      ChaoticClusterWalker.new 0 0 (.set ∅) none (some 5) = .ok (w, s) ∧
      ChaoticClusterWalker.run 1 3 w s (Rng.const ⟨2, 3, by decide⟩) = .ok r ∧
      (r.1.x, r.1.y) = (3, 3) ∧ |r.1.x - 0| ≤ 5 ∧ |r.1.y - 0| ≤ 5 := by
  refine ⟨by decide, ?_⟩
  obtain ⟨w, s, hnew, hall⟩ := cluster_confined 0 0 ∅ none (some 5) (by decide)
  simp only [ChaoticClusterWalker.new, Walker.new, Except.ok.injEq, Prod.mk.injEq] at hnew
  obtain ⟨rfl, rfl⟩ := hnew
  have hval : (ChaoticClusterWalker.run 1 3
      (⟨⟨0, 0, "C", "orange", insert (getPosition 0 0) ∅⟩, 0, 0, 5⟩ : ChaoticClusterWalker)
      (insert (getPosition 0 0) ∅) (Rng.const ⟨2, 3, by decide⟩)).toOption.map
        (fun r => (r.1.x, r.1.y)) = some (3, 3) := by decide
  cases hrun : ChaoticClusterWalker.run 1 3
      (⟨⟨0, 0, "C", "orange", insert (getPosition 0 0) ∅⟩, 0, 0, 5⟩ : ChaoticClusterWalker)
      (insert (getPosition 0 0) ∅) (Rng.const ⟨2, 3, by decide⟩) with
  | error e => rw [hrun] at hval; simp [Except.toOption] at hval
  | ok r =>
    rw [hrun] at hval
    simp only [Except.toOption, Option.map_some', Option.some.injEq] at hval
    exact ⟨_, _, r, rfl, hrun, hval, (hall 1 3 _ r.1 r.2.1 r.2.2 hrun).1⟩

/-! ## C6: the room stamp -/

theorem floorMul_lt (r : Draw) {n : Nat} (h : 0 < n) : r.floorMul n < n :=
  Nat.div_lt_of_lt_mul (Nat.mul_lt_mul_of_pos_right r.lt_den h)

theorem room_move_spec (w : RoomExpander) (m : KeySet) (g : Rng) :
    ∃ dx dy : Int, (-1 ≤ dx ∧ dx ≤ 1) ∧ (-1 ≤ dy ∧ dy ≤ 1) ∧
      (w.move m g).1.x = w.x + dx ∧ (w.move m g).1.y = w.y + dy ∧
      (∀ k : String, k ∈ (w.move m g).1.visited ↔ k ∈ w.visited ∨
        ∃ i j : Int, (-(w.roomSize / 2) ≤ i ∧ i ≤ w.roomSize / 2) ∧
          (-(w.roomSize / 2) ≤ j ∧ j ≤ w.roomSize / 2) ∧
          k = getPosition ((w.move m g).1.x + i) ((w.move m g).1.y + j)) ∧
      (∀ k : String, k ∈ (w.move m g).2.1 ↔ k ∈ m ∨
        ∃ i j : Int, (-(w.roomSize / 2) ≤ i ∧ i ≤ w.roomSize / 2) ∧
          (-(w.roomSize / 2) ≤ j ∧ j ≤ w.roomSize / 2) ∧
          k = getPosition ((w.move m g).1.x + i) ((w.move m g).1.y + j)) := by
  have h0 := floorMul_lt (g 0) (n := 3) (by decide)
  have h1 := floorMul_lt (g 1) (n := 3) (by decide)
  refine ⟨((g 0).floorMul 3 : Int) - 1, ((g 1).floorMul 3 : Int) - 1, by omega, by omega,
    rfl, rfl, ?_, ?_⟩
  · intro k; exact mem_stamp_fst
  · intro k; exact mem_stamp_snd

/-- One move of a `RoomExpander` of `roomSize` 5 whose own set and shared set hold the key
of its position only. -/
theorem room_fresh_move (w : RoomExpander) (m : KeySet) (g : Rng) (hsize : w.roomSize = 5)
    (hv : w.visited = {getPosition w.x w.y}) (hm : m = {getPosition w.x w.y}) :
    (w.move m g).1.visited =
      (Finset.Icc (-2 : Int) 2 ×ˢ Finset.Icc (-2 : Int) 2).image
        (fun p => getPosition ((w.move m g).1.x + p.1) ((w.move m g).1.y + p.2)) ∧
    (w.move m g).2.1 =
      (Finset.Icc (-2 : Int) 2 ×ˢ Finset.Icc (-2 : Int) 2).image
        (fun p => getPosition ((w.move m g).1.x + p.1) ((w.move m g).1.y + p.2)) := by
  obtain ⟨dx, dy, hdx, hdy, hx, hy, hvs, hms⟩ := room_move_spec w m g
  have hhalf : (5 : Int) / 2 = 2 := by decide
  rw [hsize, hhalf] at hvs hms
  have hsq : ∀ k : String,
      (k = getPosition w.x w.y ∨ ∃ i j : Int, (-2 ≤ i ∧ i ≤ 2) ∧ (-2 ≤ j ∧ j ≤ 2) ∧
        k = getPosition ((w.move m g).1.x + i) ((w.move m g).1.y + j)) ↔
      k ∈ (Finset.Icc (-2 : Int) 2 ×ˢ Finset.Icc (-2 : Int) 2).image
        (fun p => getPosition ((w.move m g).1.x + p.1) ((w.move m g).1.y + p.2)) := by
    intro k
    simp only [Finset.mem_image, Finset.mem_product, Finset.mem_Icc, Prod.exists]
    constructor
    · rintro (rfl | ⟨i, j, hi, hj, rfl⟩)
      · refine ⟨-dx, -dy, ⟨by omega, by omega⟩, ?_⟩
        rw [hx, hy]
        congr 1 <;> omega
      · exact ⟨i, j, ⟨hi, hj⟩, rfl⟩
    · rintro ⟨i, j, ⟨hi, hj⟩, rfl⟩
      exact Or.inr ⟨i, j, hi, hj, rfl⟩
  constructor
  · ext k
    rw [hvs k, hv, Finset.mem_singleton]
    exact hsq k
  · ext k
    rw [hms k, hm, Finset.mem_singleton]
    exact hsq k

theorem square_keys_card (cx cy : Int) :
    ((Finset.Icc (-2 : Int) 2 ×ˢ Finset.Icc (-2 : Int) 2).image
      (fun p => getPosition (cx + p.1) (cy + p.2))).card = 25 := by
  rw [Finset.card_image_of_injective]
  · decide
  · intro p q hpq
    obtain ⟨h1, h2⟩ := getPosition_inj.1 hpq
    exact Prod.ext (by omega) (by omega)

/-- C6: one `move()` of a `RoomExpander` in any state (any `roomSize`, in particular any
`roomSize >= 1`) and with any draws first shifts the position by some (dx,dy) with dx and
dy in {-1,0,1} to the new centre (cx,cy); a key is then in `visited` (in the shared set)
after the move exactly when it was there before or is the key of a cell (cx+i, cy+j) with
`-h <= i <= h`, `-h <= j <= h`, `h = floor(roomSize/2)`. A `RoomExpander` built at (0,0)
with `roomSize` 5 on the empty shared set has, after one move, a `visited` set and a shared
set both equal to the set of keys of the 5x5 square around the new position, which are 25
different keys. -/
theorem room_stamp :
    (∀ (w : RoomExpander) (m : KeySet) (g : Rng),
      ∃ dx dy : Int, (-1 ≤ dx ∧ dx ≤ 1) ∧ (-1 ≤ dy ∧ dy ≤ 1) ∧
        (w.move m g).1.x = w.x + dx ∧ (w.move m g).1.y = w.y + dy ∧
        (∀ k : String, k ∈ (w.move m g).1.visited ↔ k ∈ w.visited ∨
          ∃ i j : Int, (-(w.roomSize / 2) ≤ i ∧ i ≤ w.roomSize / 2) ∧
            (-(w.roomSize / 2) ≤ j ∧ j ≤ w.roomSize / 2) ∧
            k = getPosition ((w.move m g).1.x + i) ((w.move m g).1.y + j)) ∧
        (∀ k : String, k ∈ (w.move m g).2.1 ↔ k ∈ m ∨
          ∃ i j : Int, (-(w.roomSize / 2) ≤ i ∧ i ≤ w.roomSize / 2) ∧
            (-(w.roomSize / 2) ≤ j ∧ j ≤ w.roomSize / 2) ∧
            k = getPosition ((w.move m g).1.x + i) ((w.move m g).1.y + j))) ∧
    (∀ (color : Option String) (g : Rng),
      ∃ (w : RoomExpander) (s : KeySet),
        RoomExpander.new 0 0 (.set ∅) color (some 5) = .ok (w, s) ∧
        (w.move s g).1.visited =
          (Finset.Icc (-2 : Int) 2 ×ˢ Finset.Icc (-2 : Int) 2).image
            (fun p => getPosition ((w.move s g).1.x + p.1) ((w.move s g).1.y + p.2)) ∧
        (w.move s g).2.1 =
          (Finset.Icc (-2 : Int) 2 ×ˢ Finset.Icc (-2 : Int) 2).image
            (fun p => getPosition ((w.move s g).1.x + p.1) ((w.move s g).1.y + p.2)) ∧
        (w.move s g).1.visited.card = 25 ∧ (w.move s g).2.1.card = 25) := by
  refine ⟨room_move_spec, ?_⟩
  intro color g
  refine ⟨_, _, rfl, ?_⟩
  obtain ⟨hveq, hmeq⟩ := room_fresh_move
    (⟨⟨0, 0, "O", color.getD "purple", insert (getPosition 0 0) ∅⟩, 5, 0⟩ : RoomExpander)
    (insert (getPosition 0 0) ∅) g rfl (by simp) (by simp)
  exact ⟨hveq, hmeq, (congrArg Finset.card hveq).trans (square_keys_card _ _),
    (congrArg Finset.card hmeq).trans (square_keys_card _ _)⟩

/-! ## C7: the drunken walker backtracks -/

theorem pick_mem (l : List Dir) (h : 0 < l.length) (r : Draw) : pick l h r ∈ l :=
  List.get_mem _ _ _

theorem drunken_move_pos (w : DrunkenWalker) (m : KeySet) (g : Rng) :
    (w.move m g).1.x = w.x + (DrunkenWalker.choose w g).1.dx ∧
    (w.move m g).1.y = w.y + (DrunkenWalker.choose w g).1.dy ∧
    (w.move m g).1.prevMove = some (DrunkenWalker.choose w g).1 ∧
    (w.move m g).2.2 = (DrunkenWalker.choose w g).2 := ⟨rfl, rfl, rfl, rfl⟩

theorem drunken_choose_back (w : DrunkenWalker) (g : Rng) (p : Dir) (hp : w.prevMove = some p)
    (hb : (g 0).lt p02 = true) : DrunkenWalker.choose w g = (⟨-p.dx, -p.dy⟩, g.drop 1) := by
  unfold DrunkenWalker.choose
  rw [hp, hb]

theorem drunken_choose_none (w : DrunkenWalker) (g : Rng) (hp : w.prevMove = none) :
    DrunkenWalker.choose w g = (pick directions (by decide) (g 1), g.drop 2) := by
  unfold DrunkenWalker.choose
  rw [hp]
  cases (g 0).lt p02 <;> rfl

/-- C7: when a `DrunkenWalker` has a previous displacement (px,py) and the first draw is
below 0.2, `move()` shifts it by exactly (-px,-py), records (-px,-py) as the new previous
displacement and takes no second draw. Hence, after any `move()` from any state, a next
`move()` whose first draw is below 0.2 brings the walker back to the cell it stood on
before. When there is no previous displacement, then whatever the first draw the
displacement is the entry of the four unit displacements chosen by the second draw. -/
theorem drunken_backtrack :
    (∀ (w : DrunkenWalker) (m : KeySet) (g : Rng) (p : Dir),
      w.prevMove = some p → (g 0).lt p02 = true →
      (w.move m g).1.x = w.x - p.dx ∧ (w.move m g).1.y = w.y - p.dy ∧
      (w.move m g).1.prevMove = some ⟨-p.dx, -p.dy⟩ ∧ (w.move m g).2.2 = g.drop 1) ∧
    (∀ (w : DrunkenWalker) (m : KeySet) (g : Rng),
      ((w.move m g).2.2 0).lt p02 = true →
      (((w.move m g).1.move (w.move m g).2.1 (w.move m g).2.2).1.x = w.x ∧
       ((w.move m g).1.move (w.move m g).2.1 (w.move m g).2.2).1.y = w.y)) ∧
    (∀ (w : DrunkenWalker) (m : KeySet) (g : Rng),
      w.prevMove = none →
      ∃ d ∈ directions, d = pick directions (by decide) (g 1) ∧
        (w.move m g).1.x = w.x + d.dx ∧ (w.move m g).1.y = w.y + d.dy ∧
        (w.move m g).1.prevMove = some d ∧ (w.move m g).2.2 = g.drop 2) := by
  have back : ∀ (w : DrunkenWalker) (m : KeySet) (g : Rng) (p : Dir),
      w.prevMove = some p → (g 0).lt p02 = true →
      (w.move m g).1.x = w.x - p.dx ∧ (w.move m g).1.y = w.y - p.dy ∧
      (w.move m g).1.prevMove = some ⟨-p.dx, -p.dy⟩ ∧ (w.move m g).2.2 = g.drop 1 := by
    intro w m g p hp hb
    obtain ⟨hx, hy, hprev, hg⟩ := drunken_move_pos w m g
    rw [drunken_choose_back w g p hp hb] at hx hy hprev hg
    exact ⟨by rw [hx]; simp only; omega, by rw [hy]; simp only; omega, hprev, hg⟩
  refine ⟨back, ?_, ?_⟩
  · intro w m g hb
    obtain ⟨hx, hy, hprev, -⟩ := drunken_move_pos w m g
    obtain ⟨hx2, hy2, -, -⟩ := back (w.move m g).1 (w.move m g).2.1 (w.move m g).2.2 _ hprev hb
    rw [hx2, hy2, hx, hy]
    exact ⟨by omega, by omega⟩
  · intro w m g hp
    obtain ⟨hx, hy, hprev, hg⟩ := drunken_move_pos w m g
    rw [drunken_choose_none w g hp] at hx hy hprev hg
    exact ⟨_, pick_mem _ _ _, rfl, hx, hy, hprev, hg⟩

/-- Witness of C7: previous displacement (1,0), first draw 1/10: the walker at (5,7) goes
to (4,7) and remembers (-1,0). -/
theorem drunken_backtrack_witness :
    (Rng.const ⟨1, 10, by decide⟩ 0).lt p02 = true ∧
    (DrunkenWalker.move ⟨⟨5, 7, "D", "brown", {"4,7", "5,7"}⟩, some ⟨1, 0⟩⟩ {"4,7", "5,7"}
      (Rng.const ⟨1, 10, by decide⟩)).1.x = 5 - 1 ∧
    (DrunkenWalker.move ⟨⟨5, 7, "D", "brown", {"4,7", "5,7"}⟩, some ⟨1, 0⟩⟩ {"4,7", "5,7"}
      (Rng.const ⟨1, 10, by decide⟩)).1.prevMove = some ⟨-1, 0⟩ :=
  ⟨by decide,
    (drunken_backtrack.1 ⟨⟨5, 7, "D", "brown", {"4,7", "5,7"}⟩, some ⟨1, 0⟩⟩ {"4,7", "5,7"}
      (Rng.const ⟨1, 10, by decide⟩) ⟨1, 0⟩ rfl (by decide)).1,
    (drunken_backtrack.1 ⟨⟨5, 7, "D", "brown", {"4,7", "5,7"}⟩, some ⟨1, 0⟩⟩ {"4,7", "5,7"}
      (Rng.const ⟨1, 10, by decide⟩) ⟨1, 0⟩ rfl (by decide)).2.2.1⟩

/-! ## C8: the corridor walker runs straight -/

/-- A `CorridorWalker` whose `turnChance` is 0 and whose cell ahead is not in the shared
set keeps its facing, steps one cell ahead and takes one draw. -/
theorem corridor_move_straight (w : CorridorWalker) (m : KeySet) (g : Rng)
    (htc : w.turnChance.num = 0)
    (hfree : getPosition (w.x + w.direction.dx) (w.y + w.direction.dy) ∉ m) :
    (w.move m g).1.x = w.x + w.direction.dx ∧ (w.move m g).1.y = w.y + w.direction.dy ∧
    (w.move m g).1.direction = w.direction ∧ (w.move m g).1.turnChance = w.turnChance ∧
    (w.move m g).1.visited =
      insert (getPosition (w.x + w.direction.dx) (w.y + w.direction.dy)) w.visited ∧
    (w.move m g).2.1 = insert (getPosition (w.x + w.direction.dx) (w.y + w.direction.dy)) m ∧
    (w.move m g).2.2 = g.drop 1 := by
  have hlt : (g 0).lt w.turnChance = false := by
    simp [Draw.lt, htc]
  simp [CorridorWalker.move, hlt, hfree, Walker.applyMove]

theorem corridor_run_straight (N : Nat) (w : CorridorWalker) (m : KeySet) (g : Rng)
    (htc : w.turnChance.num = 0) (hdir : w.direction = ⟨1, 0⟩) (hx : w.x = 0) (hy : w.y = 0)
    (hfree : ∀ i : Nat, 1 ≤ i → i ≤ N → getPosition (i : Int) 0 ∉ m) :
    ∀ n : Nat, n ≤ N →
      (CorridorWalker.run n w m g).1.x = (n : Int) ∧ (CorridorWalker.run n w m g).1.y = 0 ∧
      (CorridorWalker.run n w m g).1.direction = ⟨1, 0⟩ ∧
      (CorridorWalker.run n w m g).1.turnChance.num = 0 ∧
      (CorridorWalker.run n w m g).1.visited =
        w.visited ∪ (Finset.Icc 1 n).image (fun i : Nat => getPosition (i : Int) 0) ∧
      (CorridorWalker.run n w m g).2.1 =
        m ∪ (Finset.Icc 1 n).image (fun i : Nat => getPosition (i : Int) 0) ∧
      (CorridorWalker.run n w m g).2.2 = g.drop n := by
  intro n
  induction n with
  | zero =>
    intro _
    refine ⟨by simpa using hx, hy, hdir, htc, ?_, ?_, rfl⟩ <;> simp [CorridorWalker.run]
  | succ n ih =>
    intro hn
    obtain ⟨ix, iy, idir, itc, iv, im, ig⟩ := ih (by omega)
    have hahead : getPosition ((CorridorWalker.run n w m g).1.x +
        (CorridorWalker.run n w m g).1.direction.dx)
        ((CorridorWalker.run n w m g).1.y + (CorridorWalker.run n w m g).1.direction.dy) =
        getPosition ((n + 1 : Nat) : Int) 0 := by
      rw [ix, iy, idir]; simp
    have hnot : getPosition ((n + 1 : Nat) : Int) 0 ∉ (CorridorWalker.run n w m g).2.1 := by
      rw [im, Finset.mem_union, not_or]
      refine ⟨hfree (n + 1) (by omega) hn, ?_⟩
      intro hmem
      obtain ⟨i, hi, hk⟩ := Finset.mem_image.1 hmem
      have := (getPosition_inj.1 hk).1
      have hi2 := (Finset.mem_Icc.1 hi).2
      omega
    obtain ⟨mx, my, mdir, mtc, mv, mm, mg⟩ := corridor_move_straight
      (CorridorWalker.run n w m g).1 (CorridorWalker.run n w m g).2.1
      (CorridorWalker.run n w m g).2.2 itc (by rw [hahead]; exact hnot)
    rw [hahead] at mv mm
    have hrun : CorridorWalker.run (n + 1) w m g =
        (CorridorWalker.run n w m g).1.move (CorridorWalker.run n w m g).2.1
          (CorridorWalker.run n w m g).2.2 := rfl
    rw [hrun]
    have hIcc : (Finset.Icc 1 (n + 1)).image (fun i : Nat => getPosition (i : Int) 0) =
        insert (getPosition ((n + 1 : Nat) : Int) 0)
          ((Finset.Icc 1 n).image (fun i : Nat => getPosition (i : Int) 0)) := by
      have hset : Finset.Icc 1 (n + 1) = insert (n + 1) (Finset.Icc 1 n) := by
        ext i
        simp only [Finset.mem_Icc, Finset.mem_insert]
        omega
      rw [hset, Finset.image_insert]
    refine ⟨?_, ?_, ?_, ?_, ?_, ?_, ?_⟩
    · rw [mx, ix, idir]; simp
    · rw [my, iy, idir]; simp
    · rw [mdir, idir]
    · rw [mtc]; exact itc
    · rw [mv, iv, hIcc, Finset.union_insert]
    · rw [mm, im, hIcc, Finset.union_insert]
    · rw [mg, ig]; funext i; simp only [Rng.drop]; congr 1; omega

/-- C8: a `CorridorWalker` is constructed at (0,0) (facing (1,0)) on a shared set that
holds none of the keys of (1,0), ..., (N,0), and its `turnChance` is then set to 0.
Whatever the draws, after `N` calls of `move()` it stands on (N,0), still faces (1,0),
has taken one draw per move, its `visited` set is exactly the set of the keys of (0,0),
(1,0), ..., (N,0), and the shared set has gained exactly these keys. -/
theorem corridor_straight (N : Nat) (mazeState : KeySet) (color : Option String) (g : Rng)
    (hfree : ∀ i : Nat, 1 ≤ i → i ≤ N → getPosition (i : Int) 0 ∉ mazeState) :
    ∃ (w : CorridorWalker) (s : KeySet),
      CorridorWalker.new 0 0 (.set mazeState) color = .ok (w, s) ∧
      (CorridorWalker.run N { w with turnChance := ⟨0, 1, Nat.one_pos⟩ } s g).1.x = (N : Int) ∧
      (CorridorWalker.run N { w with turnChance := ⟨0, 1, Nat.one_pos⟩ } s g).1.y = 0 ∧
      (CorridorWalker.run N { w with turnChance := ⟨0, 1, Nat.one_pos⟩ } s g).1.direction =
        ⟨1, 0⟩ ∧
      (CorridorWalker.run N { w with turnChance := ⟨0, 1, Nat.one_pos⟩ } s g).1.visited =
        (Finset.range (N + 1)).image (fun i : Nat => getPosition (i : Int) 0) ∧
      (CorridorWalker.run N { w with turnChance := ⟨0, 1, Nat.one_pos⟩ } s g).2.1 =
        mazeState ∪ (Finset.range (N + 1)).image (fun i : Nat => getPosition (i : Int) 0) ∧
      (CorridorWalker.run N { w with turnChance := ⟨0, 1, Nat.one_pos⟩ } s g).2.2 =
        g.drop N := by
  refine ⟨_, _, rfl, ?_⟩
  have hfree2 : ∀ i : Nat, 1 ≤ i → i ≤ N →
      getPosition (i : Int) 0 ∉ insert (getPosition 0 0) mazeState := by
    intro i h1 h2 hmem
    rcases Finset.mem_insert.1 hmem with h | h
    · have := (getPosition_inj.1 h).1; omega
    · exact hfree i h1 h2 h
  obtain ⟨hx, hy, hdir, -, hv, hm, hg⟩ := corridor_run_straight N
    (⟨⟨0, 0, "C", color.getD "green", insert (getPosition 0 0) ∅⟩, ⟨1, 0⟩,
      ⟨0, 1, Nat.one_pos⟩⟩ : CorridorWalker)
    (insert (getPosition 0 0) mazeState) g rfl rfl rfl rfl hfree2 N (Nat.le_refl _)
  have hrange : (Finset.range (N + 1)).image (fun i : Nat => getPosition (i : Int) 0) =
      insert (getPosition 0 0)
        ((Finset.Icc 1 N).image (fun i : Nat => getPosition (i : Int) 0)) := by
    have : Finset.range (N + 1) = insert 0 (Finset.Icc 1 N) := by
      ext i; simp only [Finset.mem_range, Finset.mem_insert, Finset.mem_Icc]; omega
    rw [this, Finset.image_insert]; rfl
  refine ⟨hx, hy, hdir, ?_, ?_, hg⟩
  · rw [hrange]
    refine hv.trans ?_
    simp only [insert_emptyc_eq]
    rfl
  · rw [hrange]
    refine hm.trans ?_
    rw [Finset.insert_union, Finset.union_insert]

/-- Witness of C8: `N = 2` on the empty shared set with every draw 2/3. -/
theorem corridor_straight_witness :
    (∀ i : Nat, 1 ≤ i → i ≤ 2 → getPosition (i : Int) 0 ∉ (∅ : KeySet)) ∧
    ∃ (w : CorridorWalker) (s : KeySet),
      CorridorWalker.new 0 0 (.set ∅) none = .ok (w, s) ∧
      (CorridorWalker.run 2 { w with turnChance := ⟨0, 1, Nat.one_pos⟩ } s
        (Rng.const ⟨2, 3, by decide⟩)).1.x = 2 := by
  refine ⟨fun i _ _ => Finset.not_mem_empty _, ?_⟩
  obtain ⟨w, s, h, hx, -⟩ := corridor_straight 2 ∅ none (Rng.const ⟨2, 3, by decide⟩)
    (fun i _ _ => Finset.not_mem_empty _)
  exact ⟨w, s, h, hx⟩

/-! ## C9 and C10: construction -/

/-- C9: the constructor call of any of the nine classes, at any position and with any other
arguments, fails exactly when the `mazeState` argument is `undefined`, `null` or not a
`Set`: it then throws the `Error` "Walker requires a valid mazeState Set." and returns
nothing, so no set is changed. When the argument is a `Set`, the call succeeds, the walker
stands at the given position, its `visited` set is exactly the key of that position, and
the shared set is the argument with that key inserted. -/
theorem construction_contract (c : Config) (x y : Int) :
    AnyWalker.new c x y .undefined =
      .error (.error "Walker requires a valid mazeState Set.") ∧
    AnyWalker.new c x y .null = .error (.error "Walker requires a valid mazeState Set.") ∧
    AnyWalker.new c x y .notASet = .error (.error "Walker requires a valid mazeState Set.") ∧
    ∀ s : KeySet, ∃ w : AnyWalker,
      AnyWalker.new c x y (.set s) = .ok (w, insert (getPosition x y) s) ∧
      w.toWalker.x = x ∧ w.toWalker.y = y ∧ w.toWalker.visited = {getPosition x y} := by
  refine ⟨?_, ?_, ?_, ?_⟩
  · cases c <;> rfl
  · cases c <;> rfl
  · cases c <;> rfl
  · intro s
    cases c <;> exact ⟨_, rfl, rfl, rfl, rfl⟩

/-- Counterexample to C10 as stated: the constructors accept `roomSize` 0 and -1 and
`clusterRadius` 0 and -3 and return a walker that stores them. -/
theorem nonpositive_parameters_accepted :
    RoomExpander.new 0 0 (.set ∅) none (some 0) =
      .ok (⟨⟨0, 0, "O", "purple", {"0,0"}⟩, 0, 0⟩, {"0,0"}) ∧
    RoomExpander.new 0 0 (.set ∅) none (some (-1)) =
      .ok (⟨⟨0, 0, "O", "purple", {"0,0"}⟩, -1, 0⟩, {"0,0"}) ∧
    ChaoticClusterWalker.new 0 0 (.set ∅) none (some 0) =
      .ok (⟨⟨0, 0, "C", "orange", {"0,0"}⟩, 0, 0, 0⟩, {"0,0"}) ∧
    ChaoticClusterWalker.new 0 0 (.set ∅) none (some (-3)) =
      .ok (⟨⟨0, 0, "C", "orange", {"0,0"}⟩, 0, 0, -3⟩, {"0,0"}) :=
  ⟨rfl, rfl, rfl, rfl⟩

/-- C10 (amended): the constructors of `RoomExpander` and `ChaoticClusterWalker` do not
look at `roomSize` and `clusterRadius`: for every integer given, positive or not, and a
`mazeState` argument that is a `Set`, they return a walker that stores the integer as
given; with a `mazeState` argument that is not a `Set` they fail with the same `Error` as
every other class, again whatever the integer. -/
theorem parameters_not_validated (x y : Int) (color : Option String) (n : Int) :
    (∀ s : KeySet, ∃ w : RoomExpander,
      RoomExpander.new x y (.set s) color (some n) = .ok (w, insert (getPosition x y) s) ∧
      w.roomSize = n) ∧
    (∀ s : KeySet, ∃ w : ChaoticClusterWalker,
      ChaoticClusterWalker.new x y (.set s) color (some n) =
        .ok (w, insert (getPosition x y) s) ∧
      w.clusterRadius = n ∧ w.startX = x ∧ w.startY = y) ∧
    (∀ a : MazeArg, (∀ s : KeySet, a ≠ .set s) →
      RoomExpander.new x y a color (some n) =
        .error (.error "Walker requires a valid mazeState Set.") ∧
      ChaoticClusterWalker.new x y a color (some n) =
        .error (.error "Walker requires a valid mazeState Set.")) := by
  refine ⟨fun s => ⟨_, rfl, rfl⟩, fun s => ⟨_, rfl, rfl, rfl, rfl⟩, ?_⟩
  intro a ha
  cases a with
  | set s => exact absurd rfl (ha s)
  | _ => exact ⟨rfl, rfl⟩

/-- Witness of C10 (amended): `roomSize` 0 and `clusterRadius` 0 at (0,0) on the empty
set, and the argument `null`. -/
theorem parameters_not_validated_witness :
    (∃ w : RoomExpander,
      RoomExpander.new 0 0 (.set ∅) none (some 0) = .ok (w, insert (getPosition 0 0) ∅) ∧
      w.roomSize = 0) ∧
    (∀ s : KeySet, MazeArg.null ≠ .set s) ∧
    ChaoticClusterWalker.new 0 0 .null none (some 0) =
      .error (.error "Walker requires a valid mazeState Set.") :=
  ⟨(parameters_not_validated 0 0 none 0).1 ∅, fun _ h => MazeArg.noConfusion h,
    ((parameters_not_validated 0 0 none 0).2.2 .null (fun _ h => MazeArg.noConfusion h)).2⟩

/-! ## C11 and C12: when a move returns -/

theorem drawnMove_drop (g : Rng) (j : Nat) : drawnMove (g.drop 2) j = drawnMove g (j + 1) := by
  simp only [drawnMove, Rng.drop]
  have h1 : 2 * j + 2 = 2 * (j + 1) := by omega
  have h2 : 2 * j + 1 + 2 = 2 * (j + 1) + 1 := by omega
  rw [h1, h2]

theorem cluster_sample_succ (w : ChaoticClusterWalker) (fuel : Nat) (g : Rng) :
    ChaoticClusterWalker.sample w (fuel + 1) g =
      if w.rejects (drawnMove g 0) then ChaoticClusterWalker.sample w fuel (g.drop 2)
      else .ok (drawnMove g 0, g.drop 2) := rfl

/-- The resample loop returns as soon as an iteration within the fuel draws an accepted
displacement. -/
theorem cluster_sample_returns (w : ChaoticClusterWalker) : ∀ (fuel : Nat) (g : Rng) (j : Nat),
    j < fuel → ¬ w.rejects (drawnMove g j) →
    ∃ r, ChaoticClusterWalker.sample w fuel g = .ok r := by
  intro fuel
  induction fuel with
  | zero => intro g j hj; omega
  | succ fuel ih =>
    intro g j hj hacc
    rw [cluster_sample_succ]
    by_cases h0 : w.rejects (drawnMove g 0)
    · rw [if_pos h0]
      cases j with
      | zero => exact absurd h0 hacc
      | succ j => exact ih (g.drop 2) j (by omega) (by rw [drawnMove_drop]; exact hacc)
    · rw [if_neg h0]; exact ⟨_, rfl⟩

/-- The resample loop uses up its fuel when every iteration within it draws a rejected
displacement. -/
theorem cluster_sample_outOfFuel (w : ChaoticClusterWalker) : ∀ (fuel : Nat) (g : Rng),
    (∀ j : Nat, j < fuel → w.rejects (drawnMove g j)) →
    ChaoticClusterWalker.sample w fuel g = .error .outOfFuel := by
  intro fuel
  induction fuel with
  | zero => intro g _; rfl
  | succ fuel ih =>
    intro g hall
    rw [cluster_sample_succ, if_pos (hall 0 (by omega))]
    exact ih (g.drop 2) (fun j hj => by rw [drawnMove_drop]; exact hall (j + 1) (by omega))

theorem cluster_move_result (fuel : Nat) (w : ChaoticClusterWalker) (m : KeySet) (g : Rng) :
    ((∃ j : Nat, j < fuel ∧ ¬ w.rejects (drawnMove g j)) →
      ∃ r, w.move fuel m g = .ok r) ∧
    ((∀ j : Nat, j < fuel → w.rejects (drawnMove g j)) →
      w.move fuel m g = .error .outOfFuel) := by
  constructor
  · rintro ⟨j, hj, hacc⟩
    obtain ⟨⟨d, g1⟩, hs⟩ := cluster_sample_returns w fuel g j hj hacc
    simp only [ChaoticClusterWalker.move, hs]
    exact ⟨_, rfl⟩
  · intro hall
    simp only [ChaoticClusterWalker.move, cluster_sample_outOfFuel w fuel g hall]

/-- The displacement of `WeightedWalker.move` is the entry of `weightedDirections` at the
index `Math.floor(Math.random() * weightedDirections.length)`. -/
theorem weighted_move_uses_pool (w : WeightedWalker) (m : KeySet) (g : Rng) (pool : List Dir)
    (hp : w.weightedDirections = .ok pool) :
    ∃ h : 0 < pool.length,
      w.move m g = .ok ({ w with toWalker := (w.toWalker.applyMove m (pick pool h (g 0))).1 },
        (w.toWalker.applyMove m (pick pool h (g 0))).2, g.drop 1) := by
  have hpos : 0 < pool.length := by
    unfold WeightedWalker.weightedDirections at hp
    split at hp
    · cases hp
    · unfold arrayConcat at hp
      split at hp
      · cases hp
        rw [List.length_append]
        exact Nat.lt_of_lt_of_le (by decide) (Nat.le_add_right _ _)
      · cases hp
  refine ⟨hpos, ?_⟩
  unfold WeightedWalker.move
  split
  · rename_i e he
    rw [hp] at he
    cases he
  · rename_i wd hwd
    rw [hp] at hwd
    cases hwd
    rfl

/-- When the pool cannot be built, `WeightedWalker.move` throws what building it throws. -/
theorem weighted_move_no_pool (w : WeightedWalker) (m : KeySet) (g : Rng) (e : Failure)
    (hp : w.weightedDirections = .error e) : w.move m g = .error e := by
  unfold WeightedWalker.move
  split
  · rename_i e1 he
    rw [hp] at he
    cases he
    rfl
  · rename_i wd hwd
    rw [hp] at hwd
    cases hwd

theorem weighted_pool_eq (w : WeightedWalker)
    (hW : 0 ≤ w.biasWeight ∧ w.biasWeight < 4294967292) :
    w.weightedDirections = .ok (directions ++ List.replicate w.biasWeight.toNat w.biasDirection) := by
  have hfill : 0 ≤ w.biasWeight ∧ w.biasWeight < 4294967296 := ⟨hW.1, by omega⟩
  have hlen : directions.length +
      (List.replicate w.biasWeight.toNat w.biasDirection).length ≤ 4294967295 := by
    rw [List.length_replicate]
    have : directions.length = 4 := rfl
    omega
  simp only [WeightedWalker.weightedDirections, arrayFill, if_pos hfill, arrayConcat,
    if_pos hlen]

/-- The pool cannot be built when `biasWeight` is negative or `4 + biasWeight` exceeds
`2^32 - 1`: `Array` or `concat` throws a `RangeError`. -/
theorem weighted_pool_error (w : WeightedWalker)
    (hW : ¬ (0 ≤ w.biasWeight ∧ w.biasWeight < 4294967292)) :
    w.weightedDirections = .error .rangeError := by
  by_cases hfill : 0 ≤ w.biasWeight ∧ w.biasWeight < 4294967296
  · have hlen : ¬ directions.length +
        (List.replicate w.biasWeight.toNat w.biasDirection).length ≤ 4294967295 := by
      rw [List.length_replicate]
      have : directions.length = 4 := rfl
      omega
    simp only [WeightedWalker.weightedDirections, arrayFill, if_pos hfill, arrayConcat,
      if_neg hlen]
  · simp only [WeightedWalker.weightedDirections, arrayFill, if_neg hfill]

theorem weighted_move_result (w : WeightedWalker) (m : KeySet) (g : Rng) :
    ((0 ≤ w.biasWeight ∧ w.biasWeight < 4294967292) → ∃ r, w.move m g = .ok r) ∧
    (¬ (0 ≤ w.biasWeight ∧ w.biasWeight < 4294967292) → w.move m g = .error .rangeError) := by
  constructor
  · intro h
    obtain ⟨hpos, hmove⟩ := weighted_move_uses_pool w m g _ (weighted_pool_eq w h)
    exact ⟨_, hmove⟩
  · intro h
    exact weighted_move_no_pool w m g _ (weighted_pool_error w h)

theorem anyWalker_weighted_error (fuel : Nat) (v : WeightedWalker) (m : KeySet) (g : Rng)
    (e : Failure) (h : v.move m g = .error e) :
    AnyWalker.move fuel (.weighted v) m g = .error e := by
  simp only [AnyWalker.move, h, Except.map]

/-- Counterexample to C11 as stated: a `WeightedWalker` constructed with `biasWeight` -1
(accepted by the constructor) throws the `RangeError` of `Array(-1)` in `move()`; one
constructed with `biasWeight` `2^32 - 1` throws the `RangeError` of `concat`, whose result
would have `2^32 + 3` entries. -/
theorem weighted_move_throws :
    WeightedWalker.new 0 0 (.set ∅) none none (some (-1)) =
      .ok (⟨⟨0, 0, "W", "blue", {"0,0"}⟩, ⟨1, 0⟩, -1⟩, {"0,0"}) ∧
    AnyWalker.move 0 (.weighted ⟨⟨0, 0, "W", "blue", {"0,0"}⟩, ⟨1, 0⟩, -1⟩) {"0,0"}
      (Rng.const ⟨0, 1, by decide⟩) = .error .rangeError ∧
    WeightedWalker.new 0 0 (.set ∅) none none (some 4294967295) =
      .ok (⟨⟨0, 0, "W", "blue", {"0,0"}⟩, ⟨1, 0⟩, 4294967295⟩, {"0,0"}) ∧
    AnyWalker.move 0 (.weighted ⟨⟨0, 0, "W", "blue", {"0,0"}⟩, ⟨1, 0⟩, 4294967295⟩) {"0,0"}
      (Rng.const ⟨0, 1, by decide⟩) = .error .rangeError :=
  ⟨rfl,
    anyWalker_weighted_error _ _ _ _ _
      (weighted_move_no_pool _ _ _ _ (weighted_pool_error _ (by simp only; omega))),
    rfl,
    anyWalker_weighted_error _ _ _ _ _
      (weighted_move_no_pool _ _ _ _ (weighted_pool_error _ (by simp only; omega)))⟩

/-- C11 (amended): `move()` of a `RandomWalker`, `CorridorWalker`, `RoomExpander`,
`ZigZagWalker`, `SpiralWalker`, `DrunkenWalker` or `WallHuggerWalker` returns in every
state and for every draw. `move()` of a `WeightedWalker` returns exactly when
`0 <= biasWeight <= 2^32 - 5`, that is when its pool of `4 + biasWeight` entries is an
array of valid length, and otherwise throws a `RangeError`. `move()` of a
`ChaoticClusterWalker` throws nothing and returns exactly when some iteration of its loop
(within the fuel) draws a displacement that keeps the walker within the radius. -/
theorem move_completes_iff (fuel : Nat) (w : AnyWalker) (m : KeySet) (g : Rng) :
    ((∃ r, w.move fuel m g = .ok r) ↔ w.MoveCompletes fuel g) ∧
    (∀ e : Failure, w.move fuel m g = .error e →
      (e = .rangeError ∧ ∃ v, w = .weighted v) ∨ (e = .outOfFuel ∧ ∃ v, w = .cluster v)) := by
  cases w with
  | weighted v =>
    obtain ⟨h1, h2⟩ := weighted_move_result v m g
    by_cases hc : 0 ≤ v.biasWeight ∧ v.biasWeight < 4294967292
    · obtain ⟨r, hr⟩ := h1 hc
      simp only [AnyWalker.move, hr, Except.map, AnyWalker.MoveCompletes]
      exact ⟨⟨fun _ => hc, fun _ => ⟨_, rfl⟩⟩, fun e he => by simp at he⟩
    · have hr := h2 hc
      simp only [AnyWalker.move, hr, Except.map, AnyWalker.MoveCompletes]
      refine ⟨⟨fun ⟨r, h⟩ => by simp at h, fun h => absurd h hc⟩, fun e he => ?_⟩
      simp only [Except.error.injEq] at he
      exact Or.inl ⟨he.symm, v, rfl⟩
  | cluster v =>
    obtain ⟨h1, h2⟩ := cluster_move_result fuel v m g
    by_cases hc : ∃ j : Nat, j < fuel ∧ ¬ v.rejects (drawnMove g j)
    · obtain ⟨r, hr⟩ := h1 hc
      simp only [AnyWalker.move, hr, Except.map, AnyWalker.MoveCompletes]
      exact ⟨⟨fun _ => hc, fun _ => ⟨_, rfl⟩⟩, fun e he => by simp at he⟩
    · have hall : ∀ j : Nat, j < fuel → v.rejects (drawnMove g j) := by
        intro j hj
        by_contra hn
        exact hc ⟨j, hj, hn⟩
      have hr := h2 hall
      simp only [AnyWalker.move, hr, Except.map, AnyWalker.MoveCompletes]
      refine ⟨⟨fun ⟨r, h⟩ => by simp at h, fun h => absurd h hc⟩, fun e he => ?_⟩
      simp only [Except.error.injEq] at he
      exact Or.inr ⟨he.symm, v, rfl⟩
  | _ =>
    simp only [AnyWalker.move, AnyWalker.MoveCompletes]
    exact ⟨⟨fun _ => trivial, fun _ => ⟨_, rfl⟩⟩, fun e he => by simp at he⟩

/-- Witness of C11 (amended): a `WeightedWalker` with `biasWeight` 3 at (0,0), first draw
1/2. -/
theorem move_completes_iff_witness :
    (AnyWalker.weighted ⟨⟨0, 0, "W", "blue", {"0,0"}⟩, ⟨1, 0⟩, 3⟩).MoveCompletes 0
      (Rng.const ⟨1, 2, by decide⟩) ∧
    ∃ r, AnyWalker.move 0 (.weighted ⟨⟨0, 0, "W", "blue", {"0,0"}⟩, ⟨1, 0⟩, 3⟩) {"0,0"}
      (Rng.const ⟨1, 2, by decide⟩) = .ok r :=
  ⟨⟨by decide, by decide⟩,
    (move_completes_iff 0 (.weighted ⟨⟨0, 0, "W", "blue", {"0,0"}⟩, ⟨1, 0⟩, 3⟩) {"0,0"}
      (Rng.const ⟨1, 2, by decide⟩)).1.2 ⟨by decide, by decide⟩⟩

/-- C12: a `ChaoticClusterWalker` whose position is within bounds (`|x - startX| <= R` and
`|y - startY| <= R`, which needs `R >= 0`) accepts the displacement (0,0), one of the nine
displacements of `{-1,0,1} x {-1,0,1}`: the continue-test of the loop fails for it. So the
loop exits in its first iteration when both draws fall on the middle value, and in general
as soon as an iteration draws an accepted displacement. When `R = 0`, (0,0) is the only one
of the nine displacements that is accepted. -/
theorem resample_can_exit (w : ChaoticClusterWalker)
    (hx : |w.x - w.startX| ≤ w.clusterRadius) (hy : |w.y - w.startY| ≤ w.clusterRadius) :
    0 ≤ w.clusterRadius ∧
    ¬ w.rejects ⟨0, 0⟩ ∧
    (∀ (fuel : Nat) (g : Rng), (g 0).floorMul 3 = 1 → (g 1).floorMul 3 = 1 →
      ChaoticClusterWalker.sample w (fuel + 1) g = .ok (⟨0, 0⟩, g.drop 2)) ∧
    (∀ (fuel : Nat) (g : Rng) (j : Nat), j < fuel → ¬ w.rejects (drawnMove g j) →
      ∃ r, ChaoticClusterWalker.sample w fuel g = .ok r) ∧
    (w.clusterRadius = 0 → ∀ dx dy : Int, -1 ≤ dx → dx ≤ 1 → -1 ≤ dy → dy ≤ 1 →
      (¬ w.rejects ⟨dx, dy⟩ ↔ dx = 0 ∧ dy = 0)) := by
  have hacc : ¬ w.rejects ⟨0, 0⟩ := by
    simp only [ChaoticClusterWalker.rejects, add_zero, not_or, not_lt]
    exact ⟨hx, hy⟩
  refine ⟨le_trans (abs_nonneg _) hx, hacc, ?_, cluster_sample_returns w, ?_⟩
  · intro fuel g h0 h1
    have hd : drawnMove g 0 = ⟨0, 0⟩ := by
      simp only [drawnMove, Nat.mul_zero, Nat.zero_add, h0, h1]
      rfl
    rw [cluster_sample_succ, hd, if_neg hacc]
  · intro hR dx dy h1 h2 h3 h4
    rw [hR] at hx hy
    have ex : w.x - w.startX = 0 := abs_nonpos_iff.1 hx
    have ey : w.y - w.startY = 0 := abs_nonpos_iff.1 hy
    simp only [ChaoticClusterWalker.rejects, hR, not_or, not_lt, abs_nonpos_iff]
    constructor
    · rintro ⟨a, b⟩; exact ⟨by omega, by omega⟩
    · rintro ⟨rfl, rfl⟩; exact ⟨by omega, by omega⟩

/-- Witness of C12: radius 0, the walker on its start (0,0), both draws 1/2. -/
theorem resample_can_exit_witness :
    |(0 : Int) - 0| ≤ 0 ∧
    ChaoticClusterWalker.sample ⟨⟨0, 0, "C", "orange", {"0,0"}⟩, 0, 0, 0⟩ (0 + 1)
      (Rng.const ⟨1, 2, by decide⟩) = .ok (⟨0, 0⟩, (Rng.const ⟨1, 2, by decide⟩).drop 2) :=
  ⟨by decide,
    (resample_can_exit ⟨⟨0, 0, "C", "orange", {"0,0"}⟩, 0, 0, 0⟩ (by decide) (by decide)).2.2.1
      0 (Rng.const ⟨1, 2, by decide⟩) (by decide) (by decide)⟩

/-! ## C13: the wall hugger -/

theorem hugger_move_pos (w : WallHuggerWalker) (m : KeySet) (g : Rng) :
    (w.move m g).1.x = w.x + (WallHuggerWalker.choose w m g).1.dx ∧
    (w.move m g).1.y = w.y + (WallHuggerWalker.choose w m g).1.dy ∧
    (w.move m g).1.direction = (WallHuggerWalker.choose w m g).1 ∧
    (w.move m g).2.2 = (WallHuggerWalker.choose w m g).2 := ⟨rfl, rfl, rfl, rfl⟩

/-- Counterexample to C13 as stated: a fresh `WallHuggerWalker` at (0,0) facing (1,0), the
cell ahead (1,0) in neither set, draw 0: it does not keep its facing but moves by
`directions[0]`, that is (0,-1), which becomes its facing. -/
theorem hugger_free_ahead_turns :
    WallHuggerWalker.new 0 0 (.set ∅) none none =
      .ok (⟨⟨0, 0, "H", "pink", {"0,0"}⟩, ⟨1, 0⟩⟩, {"0,0"}) ∧
    getPosition (0 + 1) (0 + 0) ∉ ({"0,0"} : KeySet) ∧
    (WallHuggerWalker.move ⟨⟨0, 0, "H", "pink", {"0,0"}⟩, ⟨1, 0⟩⟩ {"0,0"}
      (Rng.const ⟨0, 1, by decide⟩)).1.x = 0 ∧
    (WallHuggerWalker.move ⟨⟨0, 0, "H", "pink", {"0,0"}⟩, ⟨1, 0⟩⟩ {"0,0"}
      (Rng.const ⟨0, 1, by decide⟩)).1.y = -1 ∧
    (WallHuggerWalker.move ⟨⟨0, 0, "H", "pink", {"0,0"}⟩, ⟨1, 0⟩⟩ {"0,0"}
      (Rng.const ⟨0, 1, by decide⟩)).1.direction = ⟨0, -1⟩ :=
  ⟨rfl, by decide, by decide, by decide, by decide⟩

/-- C13 (amended): if the cell ahead of a `WallHuggerWalker` in its current facing is in its
own `visited` set or in the shared set, `move()` moves it by exactly its facing, keeps the
facing and takes no draw. Only when the cell ahead is in neither set does it take one draw
and search the four unit displacements for those leading to a cell that is in the shared
set but not in its own `visited` set: if there are any it moves by the one of them chosen
by the draw, otherwise by the one of the four unit displacements chosen by the draw; the
displacement becomes the facing. -/
theorem hugger_keep_facing (w : WallHuggerWalker) (m : KeySet) (g : Rng) :
    ((getPosition (w.x + w.direction.dx) (w.y + w.direction.dy) ∈ w.visited ∨
        getPosition (w.x + w.direction.dx) (w.y + w.direction.dy) ∈ m) →
      (w.move m g).1.x = w.x + w.direction.dx ∧ (w.move m g).1.y = w.y + w.direction.dy ∧
      (w.move m g).1.direction = w.direction ∧ (w.move m g).2.2 = g) ∧
    ((getPosition (w.x + w.direction.dx) (w.y + w.direction.dy) ∉ w.visited ∧
        getPosition (w.x + w.direction.dx) (w.y + w.direction.dy) ∉ m) →
      (w.move m g).1.x = w.x + (w.move m g).1.direction.dx ∧
      (w.move m g).1.y = w.y + (w.move m g).1.direction.dy ∧
      (w.move m g).1.direction ∈ directions ∧ (w.move m g).2.2 = g.drop 1 ∧
      ((∃ d ∈ directions, getPosition (w.x + d.dx) (w.y + d.dy) ∈ m ∧
          getPosition (w.x + d.dx) (w.y + d.dy) ∉ w.visited) →
        getPosition (w.move m g).1.x (w.move m g).1.y ∈ m ∧
        getPosition (w.move m g).1.x (w.move m g).1.y ∉ w.visited) ∧
      ((∀ d ∈ directions, ¬ (getPosition (w.x + d.dx) (w.y + d.dy) ∈ m ∧
          getPosition (w.x + d.dx) (w.y + d.dy) ∉ w.visited)) →
        (w.move m g).1.direction = pick directions (by decide) (g 0))) := by
  obtain ⟨hx, hy, hd, hg⟩ := hugger_move_pos w m g
  constructor
  · intro hocc
    have hc : WallHuggerWalker.choose w m g = (w.direction, g) := by
      unfold WallHuggerWalker.choose
      simp only
      rw [if_neg (by tauto)]
    rw [hc] at hx hy hd hg
    exact ⟨hx, hy, hd, hg⟩
  · intro hfree
    rw [hx, hy, hd, hg]
    by_cases hp : (directions.filter (fun dir =>
        decide (getPosition (w.x + dir.dx) (w.y + dir.dy) ∈ m) &&
        !decide (getPosition (w.x + dir.dx) (w.y + dir.dy) ∈ w.visited))).length > 0
    · have hc : WallHuggerWalker.choose w m g = (pick (directions.filter (fun dir =>
          decide (getPosition (w.x + dir.dx) (w.y + dir.dy) ∈ m) &&
          !decide (getPosition (w.x + dir.dx) (w.y + dir.dy) ∈ w.visited))) hp (g 0),
          g.drop 1) := by
        unfold WallHuggerWalker.choose
        simp only
        rw [if_pos hfree, dif_pos hp]
      have hc1 : (WallHuggerWalker.choose w m g).1 = pick (directions.filter (fun dir =>
          decide (getPosition (w.x + dir.dx) (w.y + dir.dy) ∈ m) &&
          !decide (getPosition (w.x + dir.dx) (w.y + dir.dy) ∈ w.visited))) hp (g 0) := by
        rw [hc]
      have hmem := pick_mem _ hp (g 0)
      rw [← hc1] at hmem
      have hmem2 := List.mem_filter.1 hmem
      simp only [Bool.and_eq_true, decide_eq_true_eq, Bool.not_eq_true', decide_eq_false_iff_not]
        at hmem2
      refine ⟨rfl, rfl, hmem2.1, by rw [hc], fun _ => hmem2.2, fun hnone => ?_⟩
      exact absurd hmem2.2 (hnone _ hmem2.1)
    · have hc : WallHuggerWalker.choose w m g = (pick directions (by decide) (g 0),
          g.drop 1) := by
        unfold WallHuggerWalker.choose
        simp only
        rw [if_pos hfree, dif_neg hp]
      rw [hc]
      refine ⟨rfl, rfl, pick_mem directions (by decide) (g 0), rfl, fun hex => ?_, fun _ => rfl⟩
      obtain ⟨d, hd1, hd2⟩ := hex
      exfalso
      apply hp
      apply List.length_pos_of_mem (a := d)
      rw [List.mem_filter]
      simp only [Bool.and_eq_true, decide_eq_true_eq, Bool.not_eq_true', decide_eq_false_iff_not]
      exact ⟨hd1, hd2⟩

/-- Witness of C13 (amended): a `WallHuggerWalker` at (0,0) facing (1,0) whose cell ahead
(1,0) is in the shared set: it steps onto (1,0) and keeps its facing. -/
theorem hugger_keep_facing_witness :
    (getPosition (0 + 1) (0 + 0) ∈ ({"0,0"} : KeySet) ∨
      getPosition (0 + 1) (0 + 0) ∈ ({"0,0", "1,0"} : KeySet)) ∧
    (WallHuggerWalker.move ⟨⟨0, 0, "H", "pink", {"0,0"}⟩, ⟨1, 0⟩⟩ {"0,0", "1,0"}
      (Rng.const ⟨0, 1, by decide⟩)).1.x = 0 + 1 ∧
    (WallHuggerWalker.move ⟨⟨0, 0, "H", "pink", {"0,0"}⟩, ⟨1, 0⟩⟩ {"0,0", "1,0"}
      (Rng.const ⟨0, 1, by decide⟩)).1.direction = ⟨1, 0⟩ :=
  ⟨Or.inr (by decide),
    ((hugger_keep_facing ⟨⟨0, 0, "H", "pink", {"0,0"}⟩, ⟨1, 0⟩⟩ {"0,0", "1,0"}
      (Rng.const ⟨0, 1, by decide⟩)).1 (Or.inr (by decide))).1,
    ((hugger_keep_facing ⟨⟨0, 0, "H", "pink", {"0,0"}⟩, ⟨1, 0⟩⟩ {"0,0", "1,0"}
      (Rng.const ⟨0, 1, by decide⟩)).1 (Or.inr (by decide))).2.2.1⟩

/-! ## C14: the weighted pool -/

theorem count_directions (b : Dir) : directions.count b = if b ∈ directions then 1 else 0 := by
  by_cases h : b ∈ directions
  · rw [if_pos h]
    exact List.count_eq_one_of_mem (by decide) h
  · rw [if_neg h]
    exact List.count_eq_zero_of_not_mem h

/-- Counterexample to C14 as stated: for the default bias (1,0) and the default weight 3
the pool has 7 entries and 4 of them, not 3, are equal to the bias. -/
theorem default_bias_counted_four :
    WeightedWalker.new 0 0 (.set ∅) none none none =
      .ok (⟨⟨0, 0, "W", "blue", {"0,0"}⟩, ⟨1, 0⟩, 3⟩, {"0,0"}) ∧
    WeightedWalker.weightedDirections ⟨⟨0, 0, "W", "blue", {"0,0"}⟩, ⟨1, 0⟩, 3⟩ =
      .ok [⟨0, -1⟩, ⟨0, 1⟩, ⟨-1, 0⟩, ⟨1, 0⟩, ⟨1, 0⟩, ⟨1, 0⟩, ⟨1, 0⟩] ∧
    List.count (⟨1, 0⟩ : Dir) [⟨0, -1⟩, ⟨0, 1⟩, ⟨-1, 0⟩, ⟨1, 0⟩, ⟨1, 0⟩, ⟨1, 0⟩, ⟨1, 0⟩] = 4 :=
  ⟨rfl, rfl, by decide⟩

/-- C14 (amended): for a `WeightedWalker` with bias displacement `b` and integer weight `W`
with `0 <= W <= 2^32 - 5`, the range in which the pool of `4 + W` entries is an array of
valid length, the pool built by `move()` is the four unit displacements followed
by `W` copies of `b`: it has exactly `4 + W` entries, and `move()` moves by the entry at
the index `floor(r * (4 + W))` for the draw `r`. The number of entries (pool indices)
equal to `b` is `W + 1` when `b` is one of the four unit displacements, as the default
(1,0) is, and `W` otherwise; so a unit bias is chosen with probability (W+1)/(4+W). -/
theorem weighted_pool (w : WeightedWalker)
    (hW : 0 ≤ w.biasWeight ∧ w.biasWeight < 4294967292) :
    ∃ pool : List Dir,
      w.weightedDirections = .ok pool ∧
      pool = directions ++ List.replicate w.biasWeight.toNat w.biasDirection ∧
      (pool.length : Int) = 4 + w.biasWeight ∧
      ((pool.count w.biasDirection : Int) =
        w.biasWeight + (if w.biasDirection ∈ directions then 1 else 0)) ∧
      ∀ (m : KeySet) (g : Rng), ∃ h : 0 < pool.length,
        w.move m g =
          .ok ({ w with toWalker := (w.toWalker.applyMove m (pick pool h (g 0))).1 },
            (w.toWalker.applyMove m (pick pool h (g 0))).2, g.drop 1) := by
  refine ⟨_, weighted_pool_eq w hW, rfl, ?_, ?_, ?_⟩
  · rw [List.length_append, List.length_replicate]
    have : directions.length = 4 := rfl
    rw [this]
    omega
  · rw [List.count_append, List.count_replicate_self, count_directions]
    split <;> omega
  · intro m g
    exact weighted_move_uses_pool w m g _ (weighted_pool_eq w hW)

/-- Witness of C14 (amended): bias (2,5), which is no unit displacement, and weight 2. -/
theorem weighted_pool_witness :
    ((0 : Int) ≤ 2 ∧ (2 : Int) < 4294967292) ∧
    ∃ pool : List Dir,
      WeightedWalker.weightedDirections ⟨⟨0, 0, "W", "blue", {"0,0"}⟩, ⟨2, 5⟩, 2⟩ = .ok pool ∧
      (pool.length : Int) = 4 + 2 ∧
      (pool.count (⟨2, 5⟩ : Dir) : Int) = 2 + (if (⟨2, 5⟩ : Dir) ∈ directions then 1 else 0) := by
  obtain ⟨pool, h1, -, h2, h3, -⟩ :=
    weighted_pool ⟨⟨0, 0, "W", "blue", {"0,0"}⟩, ⟨2, 5⟩, 2⟩ ⟨by decide, by decide⟩
  exact ⟨⟨by decide, by decide⟩, pool, h1, h2, h3⟩

/-! ## C15: the side of the room -/

/-- Number of keys of the square of half-side `h >= 0`. -/
theorem square_card (cx cy h : Int) (hh : 0 ≤ h) :
    (((Finset.Icc (-h) h ×ˢ Finset.Icc (-h) h).image
      (fun p => getPosition (cx + p.1) (cy + p.2))).card : Int) = (2 * h + 1) * (2 * h + 1) := by
  rw [Finset.card_image_of_injective, Finset.card_product, Int.card_Icc]
  · push_cast
    rw [Int.toNat_of_nonneg (by omega)]
    ring
  · intro p q hpq
    obtain ⟨h1, h2⟩ := getPosition_inj.1 hpq
    exact Prod.ext (by omega) (by omega)

theorem room_move_sets (w : RoomExpander) (m : KeySet) (g : Rng) :
    (w.move m g).1.visited = w.visited ∪
      (Finset.Icc (-(w.roomSize / 2)) (w.roomSize / 2) ×ˢ
        Finset.Icc (-(w.roomSize / 2)) (w.roomSize / 2)).image
        (fun p => getPosition ((w.move m g).1.x + p.1) ((w.move m g).1.y + p.2)) ∧
    (w.move m g).2.1 = m ∪
      (Finset.Icc (-(w.roomSize / 2)) (w.roomSize / 2) ×ˢ
        Finset.Icc (-(w.roomSize / 2)) (w.roomSize / 2)).image
        (fun p => getPosition ((w.move m g).1.x + p.1) ((w.move m g).1.y + p.2)) := by
  obtain ⟨dx, dy, -, -, -, -, hv, hm⟩ := room_move_spec w m g
  have hsq : ∀ k : String,
      (∃ i j : Int, (-(w.roomSize / 2) ≤ i ∧ i ≤ w.roomSize / 2) ∧
        (-(w.roomSize / 2) ≤ j ∧ j ≤ w.roomSize / 2) ∧
        k = getPosition ((w.move m g).1.x + i) ((w.move m g).1.y + j)) ↔
      k ∈ (Finset.Icc (-(w.roomSize / 2)) (w.roomSize / 2) ×ˢ
        Finset.Icc (-(w.roomSize / 2)) (w.roomSize / 2)).image
        (fun p => getPosition ((w.move m g).1.x + p.1) ((w.move m g).1.y + p.2)) := by
    intro k
    simp only [Finset.mem_image, Finset.mem_product, Finset.mem_Icc, Prod.exists]
    constructor
    · rintro ⟨i, j, hi, hj, rfl⟩; exact ⟨i, j, ⟨hi, hj⟩, rfl⟩
    · rintro ⟨i, j, ⟨hi, hj⟩, rfl⟩; exact ⟨i, j, hi, hj, rfl⟩
  constructor
  · ext k; rw [hv k, Finset.mem_union, hsq k]
  · ext k; rw [hm k, Finset.mem_union, hsq k]

/-- Counterexample to C15 as stated: a `RoomExpander` built at (0,0) with `roomSize` 2 on
the empty set has, after one move with both draws 1/2 (displacement (0,0)), stamped the
9 keys of a square of side 3, not the 4 of a square of side 2. -/
theorem even_roomSize_stamps_more :
    RoomExpander.new 0 0 (.set ∅) none (some 2) =
      .ok (⟨⟨0, 0, "O", "purple", {"0,0"}⟩, 2, 0⟩, {"0,0"}) ∧
    (RoomExpander.move ⟨⟨0, 0, "O", "purple", {"0,0"}⟩, 2, 0⟩ {"0,0"}
      (Rng.const ⟨1, 2, by decide⟩)).1.visited =
        {"-1,-1", "-1,0", "-1,1", "0,-1", "0,0", "0,1", "1,-1", "1,0", "1,1"} ∧
    (RoomExpander.move ⟨⟨0, 0, "O", "purple", {"0,0"}⟩, 2, 0⟩ {"0,0"}
      (Rng.const ⟨1, 2, by decide⟩)).1.visited.card = 9 :=
  ⟨rfl, by decide, by decide⟩

/-- C15 (amended): for every positive integer `roomSize` (indeed every `roomSize >= 0`) one
`RoomExpander.move()` adds to `visited` and to the shared set the keys of the square
centred on the new position whose side is `2 * floor(roomSize / 2) + 1` cells: these are
exactly `(2 * floor(roomSize / 2) + 1)^2` different keys. The side is `roomSize`, and the
number of cells `roomSize * roomSize`, when `roomSize` is odd; when `roomSize` is even the
side is `roomSize + 1`. -/
theorem room_side (w : RoomExpander) (m : KeySet) (g : Rng) (hpos : 0 ≤ w.roomSize) :
    ∃ stamped : KeySet,
      stamped = (Finset.Icc (-(w.roomSize / 2)) (w.roomSize / 2) ×ˢ
        Finset.Icc (-(w.roomSize / 2)) (w.roomSize / 2)).image
        (fun p => getPosition ((w.move m g).1.x + p.1) ((w.move m g).1.y + p.2)) ∧
      (w.move m g).1.visited = w.visited ∪ stamped ∧
      (w.move m g).2.1 = m ∪ stamped ∧
      (stamped.card : Int) = (2 * (w.roomSize / 2) + 1) * (2 * (w.roomSize / 2) + 1) ∧
      (w.roomSize % 2 = 1 → (stamped.card : Int) = w.roomSize * w.roomSize) ∧
      (w.roomSize % 2 = 0 → (stamped.card : Int) = (w.roomSize + 1) * (w.roomSize + 1)) := by
  obtain ⟨hv, hm⟩ := room_move_sets w m g
  have hc := square_card (w.move m g).1.x (w.move m g).1.y (w.roomSize / 2) (by omega)
  refine ⟨_, rfl, hv, hm, hc, ?_, ?_⟩
  · intro hodd
    have : 2 * (w.roomSize / 2) + 1 = w.roomSize := by omega
    rw [hc, this]
  · intro heven
    have : 2 * (w.roomSize / 2) + 1 = w.roomSize + 1 := by omega
    rw [hc, this]

/-- Witness of C15 (amended): `roomSize` 5 at (0,0), both draws 1/2: 25 keys. -/
theorem room_side_witness :
    (0 : Int) ≤ 5 ∧ (5 : Int) % 2 = 1 ∧
    ∃ stamped : KeySet,
      (RoomExpander.move ⟨⟨0, 0, "O", "purple", {"0,0"}⟩, 5, 0⟩ {"0,0"}
        (Rng.const ⟨1, 2, by decide⟩)).1.visited = {"0,0"} ∪ stamped ∧
      (stamped.card : Int) = 5 * 5 := by
  obtain ⟨s, -, hv, -, -, hodd, -⟩ := room_side ⟨⟨0, 0, "O", "purple", {"0,0"}⟩, 5, 0⟩ {"0,0"}
    (Rng.const ⟨1, 2, by decide⟩) (by decide)
  exact ⟨by decide, by decide, s, hv, hodd (by decide)⟩

/-! ## C16: the preference of the random walker -/

theorem random_move_found (w : RandomWalker) (m : KeySet) (g : Rng) (d : Dir)
    (hlt : (g 0).lt p03 = true)
    (hf : directions.find?
      (fun dir => decide (getPosition (w.x + dir.dx) (w.y + dir.dy) ∈ m)) = some d) :
    w.move m g = ({ w with toWalker := (w.toWalker.applyMove m d).1 },
      (w.toWalker.applyMove m d).2, g.drop 1) := by
  unfold RandomWalker.move
  simp only [hlt, if_true, hf]

theorem random_move_random (w : RandomWalker) (m : KeySet) (g : Rng)
    (h : (g 0).lt p03 = false ∨ directions.find?
      (fun dir => decide (getPosition (w.x + dir.dx) (w.y + dir.dy) ∈ m)) = none) :
    w.move m g =
      ({ w with toWalker := (w.toWalker.applyMove m (pick directions (by decide) (g 1))).1 },
        (w.toWalker.applyMove m (pick directions (by decide) (g 1))).2, g.drop 2) := by
  unfold RandomWalker.move
  cases hlt : (g 0).lt p03 with
  | false => simp only [Bool.false_eq_true, if_false]
  | true =>
    rcases h with h | h
    · rw [hlt] at h; exact absurd h (by decide)
    · simp only [if_true, h]

/-- C16: when the first draw of `RandomWalker.move()` is below 0.3 and at least one of the
four neighbour cells is in the shared set, the walker moves to the first such neighbour in
the order up (0,-1), down (0,1), left (-1,0), right (1,0); it takes no second draw, the
result is the same for every stream whose first draw is below 0.3, and the shared set is
left unchanged. When the first draw is not below 0.3, or no neighbour is in the shared
set, the displacement is the unit displacement at the index given by the second draw. In
every case the displacement is one of the four unit displacements. -/
theorem random_preference (w : RandomWalker) (m : KeySet) (g : Rng) :
    directions = [⟨0, -1⟩, ⟨0, 1⟩, ⟨-1, 0⟩, ⟨1, 0⟩] ∧
    ((g 0).lt p03 = true →
      (∃ d ∈ directions, getPosition (w.x + d.dx) (w.y + d.dy) ∈ m) →
      ∃ (before after : List Dir) (d : Dir), directions = before ++ d :: after ∧
        (∀ e ∈ before, getPosition (w.x + e.dx) (w.y + e.dy) ∉ m) ∧
        getPosition (w.x + d.dx) (w.y + d.dy) ∈ m ∧
        (w.move m g).1.x = w.x + d.dx ∧ (w.move m g).1.y = w.y + d.dy ∧
        (w.move m g).2.1 = m ∧ (w.move m g).2.2 = g.drop 1 ∧
        ∀ g1 : Rng, (g1 0).lt p03 = true →
          (w.move m g1).1 = (w.move m g).1 ∧ (w.move m g1).2.1 = (w.move m g).2.1) ∧
    (((g 0).lt p03 = false ∨
        ∀ d ∈ directions, getPosition (w.x + d.dx) (w.y + d.dy) ∉ m) →
      (w.move m g).1.x = w.x + (pick directions (by decide) (g 1)).dx ∧
      (w.move m g).1.y = w.y + (pick directions (by decide) (g 1)).dy ∧
      (w.move m g).2.2 = g.drop 2) ∧
    (∃ d ∈ directions, (w.move m g).1.x = w.x + d.dx ∧ (w.move m g).1.y = w.y + d.dy) := by
  have hnone : (∀ d ∈ directions, getPosition (w.x + d.dx) (w.y + d.dy) ∉ m) →
      directions.find?
        (fun dir => decide (getPosition (w.x + dir.dx) (w.y + dir.dy) ∈ m)) = none := by
    intro h
    rw [List.find?_eq_none]
    intro d hd
    simpa using h d hd
  have hrand : ((g 0).lt p03 = false ∨
        ∀ d ∈ directions, getPosition (w.x + d.dx) (w.y + d.dy) ∉ m) →
      (w.move m g).1.x = w.x + (pick directions (by decide) (g 1)).dx ∧
      (w.move m g).1.y = w.y + (pick directions (by decide) (g 1)).dy ∧
      (w.move m g).2.2 = g.drop 2 := by
    intro h
    rw [random_move_random w m g (h.imp id hnone)]
    exact ⟨rfl, rfl, rfl⟩
  have hfound : (g 0).lt p03 = true →
      (∃ d ∈ directions, getPosition (w.x + d.dx) (w.y + d.dy) ∈ m) →
      ∃ (before after : List Dir) (d : Dir), directions = before ++ d :: after ∧
        (∀ e ∈ before, getPosition (w.x + e.dx) (w.y + e.dy) ∉ m) ∧
        getPosition (w.x + d.dx) (w.y + d.dy) ∈ m ∧
        (w.move m g).1.x = w.x + d.dx ∧ (w.move m g).1.y = w.y + d.dy ∧
        (w.move m g).2.1 = m ∧ (w.move m g).2.2 = g.drop 1 ∧
        ∀ g1 : Rng, (g1 0).lt p03 = true →
          (w.move m g1).1 = (w.move m g).1 ∧ (w.move m g1).2.1 = (w.move m g).2.1 := by
    intro hlt ⟨d0, hd0, hk0⟩
    cases hf : directions.find?
        (fun dir => decide (getPosition (w.x + dir.dx) (w.y + dir.dy) ∈ m)) with
    | none =>
      rw [List.find?_eq_none] at hf
      exact absurd (by simpa using hk0) (hf d0 hd0)
    | some d =>
      obtain ⟨hpd, before, after, hsplit, hbefore⟩ := List.find?_eq_some.1 hf
      have hkd : getPosition (w.x + d.dx) (w.y + d.dy) ∈ m := by simpa using hpd
      refine ⟨before, after, d, hsplit, ?_, hkd, ?_⟩
      · intro e he
        simpa using hbefore e he
      · rw [random_move_found w m g d hlt hf]
        refine ⟨rfl, rfl, ?_, rfl, ?_⟩
        · simp only [Walker.applyMove]
          exact Finset.insert_eq_of_mem hkd
        · intro g1 hlt1
          rw [random_move_found w m g1 d hlt1 hf]
          exact ⟨rfl, rfl⟩
  refine ⟨rfl, hfound, hrand, ?_⟩
  cases hlt : (g 0).lt p03 with
  | false =>
    obtain ⟨hx, hy, -⟩ := hrand (Or.inl hlt)
    exact ⟨_, pick_mem directions (by decide) (g 1), hx, hy⟩
  | true =>
    by_cases hex : ∃ d ∈ directions, getPosition (w.x + d.dx) (w.y + d.dy) ∈ m
    · obtain ⟨before, after, d, hsplit, -, -, hx, hy, -⟩ := hfound hlt hex
      refine ⟨d, ?_, hx, hy⟩
      rw [hsplit]; simp
    · have hall : ∀ d ∈ directions, getPosition (w.x + d.dx) (w.y + d.dy) ∉ m :=
        fun d hd hk => hex ⟨d, hd, hk⟩
      obtain ⟨hx, hy, -⟩ := hrand (Or.inr hall)
      exact ⟨_, pick_mem directions (by decide) (g 1), hx, hy⟩

/-- Witness of C16: a `RandomWalker` at (0,0), the cells (0,1) and (1,0) in the shared
set, first draw 1/10: it moves down to (0,1), the first of the two in the fixed order, and
the shared set stays as it is. -/
theorem random_preference_witness :
    (Rng.const ⟨1, 10, by decide⟩ 0).lt p03 = true ∧
    (∃ d ∈ directions, getPosition (0 + d.dx) (0 + d.dy) ∈ ({"0,0", "0,1", "1,0"} : KeySet)) ∧
    (RandomWalker.move ⟨⟨0, 0, "R", "red", {"0,0"}⟩⟩ {"0,0", "0,1", "1,0"}
      (Rng.const ⟨1, 10, by decide⟩)).1.x = 0 ∧
    (RandomWalker.move ⟨⟨0, 0, "R", "red", {"0,0"}⟩⟩ {"0,0", "0,1", "1,0"}
      (Rng.const ⟨1, 10, by decide⟩)).1.y = 1 ∧
    (RandomWalker.move ⟨⟨0, 0, "R", "red", {"0,0"}⟩⟩ {"0,0", "0,1", "1,0"}
      (Rng.const ⟨1, 10, by decide⟩)).2.1 = {"0,0", "0,1", "1,0"} := by
  obtain ⟨-, -, d, -, -, -, -, -, hm, -⟩ :=
    (random_preference ⟨⟨0, 0, "R", "red", {"0,0"}⟩⟩ {"0,0", "0,1", "1,0"}
      (Rng.const ⟨1, 10, by decide⟩)).2.1 (by decide) ⟨⟨0, 1⟩, by decide, by decide⟩
  exact ⟨by decide, ⟨⟨0, 1⟩, by decide, by decide⟩, by decide, by decide, hm⟩

/-! ## C17: the forced turn of the corridor walker -/

/-- C17: when the facing (dx,dy) of a `CorridorWalker` is one of the four unit
displacements and the cell ahead is in the shared set, then whatever the draws and the
`turnChance`, `move()` replaces the facing by (dy,-dx) when the second draw is above 0.5
and by (-dy,dx) otherwise; the new facing is again a unit displacement, the walker moves
one cell in the new facing, and the cell it enters is not the occupied cell ahead. -/
theorem corridor_forced_turn (w : CorridorWalker) (m : KeySet) (g : Rng)
    (hunit : w.direction ∈ directions)
    (hocc : getPosition (w.x + w.direction.dx) (w.y + w.direction.dy) ∈ m) :
    (w.move m g).1.direction =
      (if (g 1).gt p05 then ⟨w.direction.dy, -w.direction.dx⟩
        else ⟨-w.direction.dy, w.direction.dx⟩) ∧
    (w.move m g).1.direction ∈ directions ∧
    (w.move m g).1.x = w.x + (w.move m g).1.direction.dx ∧
    (w.move m g).1.y = w.y + (w.move m g).1.direction.dy ∧
    ((w.move m g).1.x, (w.move m g).1.y) ≠ (w.x + w.direction.dx, w.y + w.direction.dy) ∧
    (w.move m g).2.2 = g.drop 2 := by
  have hmove : w.move m g =
      ({ w with
          toWalker := (w.toWalker.applyMove m
            (if (g 1).gt p05 then ⟨w.direction.dy, -w.direction.dx⟩
              else ⟨-w.direction.dy, w.direction.dx⟩)).1,
          direction := (if (g 1).gt p05 then ⟨w.direction.dy, -w.direction.dx⟩
              else ⟨-w.direction.dy, w.direction.dx⟩) },
        (w.toWalker.applyMove m
            (if (g 1).gt p05 then ⟨w.direction.dy, -w.direction.dx⟩
              else ⟨-w.direction.dy, w.direction.dx⟩)).2, g.drop 2) := by
    unfold CorridorWalker.move
    simp only [hocc, decide_True, Bool.or_true, if_true]
  rw [hmove]
  simp only [Walker.applyMove]
  have hcases : w.direction = ⟨0, -1⟩ ∨ w.direction = ⟨0, 1⟩ ∨ w.direction = ⟨-1, 0⟩ ∨
      w.direction = ⟨1, 0⟩ := by
    simpa [directions] using hunit
  refine ⟨trivial, ?_, trivial, trivial, ?_, trivial⟩
  · rcases hcases with h | h | h | h <;> rw [h] <;> split <;> decide
  · rcases hcases with h | h | h | h <;> rw [h] <;> split <;>
      simp only [ne_eq, Prod.mk.injEq, not_and] <;> omega

/-- Witness of C17: a `CorridorWalker` at (0,0) facing (1,0), the cell (1,0) in the shared
set, every draw 2/3: the new facing is (0,-1) and the walker enters (0,-1). -/
theorem corridor_forced_turn_witness :
    (⟨1, 0⟩ : Dir) ∈ directions ∧
    getPosition (0 + 1) (0 + 0) ∈ ({"0,0", "1,0"} : KeySet) ∧
    (CorridorWalker.move ⟨⟨0, 0, "C", "green", {"0,0"}⟩, ⟨1, 0⟩, p02⟩ {"0,0", "1,0"}
      (Rng.const ⟨2, 3, by decide⟩)).1.direction = ⟨0, -1⟩ ∧
    (CorridorWalker.move ⟨⟨0, 0, "C", "green", {"0,0"}⟩, ⟨1, 0⟩, p02⟩ {"0,0", "1,0"}
      (Rng.const ⟨2, 3, by decide⟩)).1.direction ∈ directions :=
  ⟨by decide, by decide, by decide,
    (corridor_forced_turn ⟨⟨0, 0, "C", "green", {"0,0"}⟩, ⟨1, 0⟩, p02⟩ {"0,0", "1,0"}
      (Rng.const ⟨2, 3, by decide⟩) (by decide) (by decide)).2.1⟩

/-! ## C18: keys decode to their cells -/

theorem splitComma_of_not_mem : ∀ l : List Char, ',' ∉ l → splitComma l = [l] := by
  intro l
  induction l with
  | nil => intro _; rfl
  | cons c l ih =>
    intro h
    simp only [List.mem_cons, not_or] at h
    have hc : ¬ c = ',' := fun e => h.1 e.symm
    simp only [splitComma, if_neg hc, ih h.2]

theorem splitComma_append : ∀ l1 l2 : List Char, ',' ∉ l1 →
    splitComma (l1 ++ ',' :: l2) = l1 :: splitComma l2 := by
  intro l1
  induction l1 with
  | nil => intro l2 _; simp [splitComma]
  | cons c l ih =>
    intro l2 h
    simp only [List.mem_cons, not_or] at h
    have hc : ¬ c = ',' := fun e => h.1 e.symm
    show splitComma (c :: (l ++ ',' :: l2)) = (c :: l) :: splitComma l2
    rw [splitComma, if_neg hc, ih l2 h.2]

theorem jsNumber_digits (n : Nat) : jsNumber (Nat.toDigits 10 n) = some (n : Int) := by
  have hne := toDigits_ne_nil n
  have hd := isDigit_toDigits n
  have hall : (Nat.toDigits 10 n).all Char.isDigit = true := List.all_eq_true.2 hd
  cases hl : Nat.toDigits 10 n with
  | nil => exact absurd hl hne
  | cons c l =>
    have hcd : c.isDigit = true := hd c (by rw [hl]; simp)
    have hm : c ≠ '-' := by
      intro hc; rw [hc] at hcd; revert hcd; decide
    have hp : c ≠ '+' := by
      intro hc; rw [hc] at hcd; revert hcd; decide
    rw [hl] at hall
    have hdec : decodeNat (c :: l) = n := by rw [← hl]; exact decodeNat_toDigits n
    unfold jsNumber
    split
    · rename_i heq; simp at heq
    · rename_i heq; simp only [List.cons.injEq] at heq; exact absurd heq.1 hm
    · rename_i heq; simp only [List.cons.injEq] at heq; exact absurd heq.1 hp
    · rw [if_pos hall, hdec]

theorem jsNumber_toString (x : Int) : jsNumber (toString x).data = some x := by
  rw [toString_int_data]
  by_cases h : 0 ≤ x
  · rw [if_pos h, jsNumber_digits]
    congr 1
    omega
  · rw [if_neg h]
    have hne := toDigits_ne_nil (-x).toNat
    have hall : (Nat.toDigits 10 (-x).toNat).all Char.isDigit = true :=
      List.all_eq_true.2 (isDigit_toDigits (-x).toNat)
    have hemp : (Nat.toDigits 10 (-x).toNat).isEmpty = false := by
      cases hl : Nat.toDigits 10 (-x).toNat with
      | nil => exact absurd hl hne
      | cons c l => rfl
    simp only [jsNumber, hemp, hall, Bool.not_false, Bool.and_self, if_true, decodeNat_toDigits]
    congr 1
    omega

theorem getPosition_data (x y : Int) :
    (getPosition x y).data = (toString x).data ++ ',' :: (toString y).data := by
  simp only [getPosition, String.data_append, List.append_assoc]
  rfl

/-- C18: for all integers `x` and `y`, negative ones included, the renderer's decoding of
the key built by `getPosition` (split at the commas, `Number` of each piece, first two
values) gives back exactly `(x, y)`; hence two cells have the same key if and only if they
have the same coordinates. -/
theorem key_round_trip :
    (∀ x y : Int, decodeKey (getPosition x y) = some (x, y)) ∧
    (∀ x y x1 y1 : Int, getPosition x y = getPosition x1 y1 ↔ x = x1 ∧ y = y1) := by
  have hdec : ∀ x y : Int, decodeKey (getPosition x y) = some (x, y) := by
    intro x y
    unfold decodeKey
    rw [getPosition_data, splitComma_append _ _ (comma_not_mem_toString x),
      splitComma_of_not_mem _ (comma_not_mem_toString y)]
    simp only [List.map_cons, List.map_nil, jsNumber_toString]
  refine ⟨hdec, ?_⟩
  intro x y x1 y1
  constructor
  · intro h
    have h2 := congrArg decodeKey h
    rw [hdec, hdec] at h2
    simpa using h2
  · rintro ⟨rfl, rfl⟩; rfl

/-! ## C19: the shared set holds every walker's own set -/

theorem AnyWalker.move_subset {fuel : Nat} {w w1 : AnyWalker} {m m1 : KeySet} {g g1 : Rng}
    (hs : w.toWalker.visited ⊆ m) (h : w.move fuel m g = .ok (w1, m1, g1)) :
    w1.toWalker.visited ⊆ m1 := by
  rcases AnyWalker.move_cases h with ⟨d, hd⟩ | ⟨r, r1, rfl, rfl, -, dx, dy, -, -, hst⟩
  · have h1 := congrArg Prod.fst hd
    have h2 := congrArg Prod.snd hd
    simp only [Walker.applyMove] at h1 h2
    rw [h1, h2]
    exact Finset.insert_subset_insert _ hs
  · rw [stamp_eq] at hst
    have h1 := congrArg Prod.fst hst
    have h2 := congrArg Prod.snd hst
    simp only at h1 h2
    show r1.visited ⊆ m1
    rw [h1, h2]
    exact Finset.union_subset_union_left hs

theorem moveWalkers_subset (fuel : Nat) : ∀ (ws : List AnyWalker) (m : KeySet) (g : Rng),
    (∀ w ∈ ws, w.toWalker.visited ⊆ m) →
    ∀ w ∈ (moveWalkers fuel ws m g).walkers,
      w.toWalker.visited ⊆ (moveWalkers fuel ws m g).mazeState := by
  intro ws
  induction ws with
  | nil => intro m g _ w hw; simp [moveWalkers] at hw
  | cons w0 ws ih =>
    intro m g hall
    unfold moveWalkers
    cases hmv : w0.move fuel m g with
    | error e => exact hall
    | ok r =>
      obtain ⟨w1, m1, g1⟩ := r
      have h0 := hall w0 (List.mem_cons_self _ _)
      have hm := (AnyWalker.move_mono hmv).1
      have htail : ∀ w ∈ ws, w.toWalker.visited ⊆ m1 :=
        fun w hw => (hall w (List.mem_cons_of_mem _ hw)).trans hm
      intro w hw
      rcases List.mem_cons.1 hw with rfl | hw
      · exact (AnyWalker.move_subset h0 hmv).trans (moveWalkers_mono fuel ws m1 g1).1
      · exact ih m1 g1 htail w hw

theorem expandMaze_subset (fuel : Nat) : ∀ (n : Nat) (ws : List AnyWalker) (m : KeySet)
    (g : Rng), (∀ w ∈ ws, w.toWalker.visited ⊆ m) →
    ∀ w ∈ (expandMaze fuel n ws m g).walkers,
      w.toWalker.visited ⊆ (expandMaze fuel n ws m g).mazeState := by
  intro n
  induction n with
  | zero => intro ws m g hall; exact hall
  | succ n ih =>
    intro ws m g hall
    have h1 := moveWalkers_subset fuel ws m g hall
    rw [expandMaze_succ]
    cases hf : (moveWalkers fuel ws m g).failure with
    | some e => exact h1
    | none => exact ih _ _ _ h1

theorem anyWalker_new_set (c : Config) (x y : Int) (s : KeySet) :
    ∃ w : AnyWalker, AnyWalker.new c x y (.set s) = .ok (w, insert (getPosition x y) s) ∧
      w.toWalker.visited = {getPosition x y} := by
  cases c <;> exact ⟨_, rfl, rfl⟩

theorem constructAll_ok : ∀ (specs : List (Config × Int × Int)) (s : KeySet),
    ∃ (ws : List AnyWalker) (s1 : KeySet), constructAll specs s = .ok (ws, s1) ∧
      ws.length = specs.length ∧ s ⊆ s1 ∧ ∀ w ∈ ws, w.toWalker.visited ⊆ s1 := by
  intro specs
  induction specs with
  | nil => intro s; exact ⟨[], s, rfl, rfl, Finset.Subset.refl _, fun w hw => by simp at hw⟩
  | cons spec rest ih =>
    intro s
    obtain ⟨c, x, y⟩ := spec
    obtain ⟨w, hw, hv⟩ := anyWalker_new_set c x y s
    obtain ⟨ws, s2, hrest, hlen, hsub, hall⟩ := ih (insert (getPosition x y) s)
    refine ⟨w :: ws, s2, ?_, by simp [hlen], (Finset.subset_insert _ _).trans hsub, ?_⟩
    · simp only [constructAll, hw, hrest]
    · intro w1 hw1
      rcases List.mem_cons.1 hw1 with rfl | hw1
      · rw [hv]
        exact (Finset.singleton_subset_iff.2 (Finset.mem_insert_self _ _)).trans hsub
      · exact hall w1 hw1

/-- C19: a constructor call of any class on a shared set returns a walker whose `visited`
set is contained in the shared set, and a completed `move()` of a walker whose `visited`
set is contained in the shared set keeps it so. Hence, when any list of walkers of any
classes is constructed on one shared set (which always succeeds) and any number of ticks
is run with any draws, every walker's `visited` set is a subset of the shared set: the
shared set contains the union of the walkers' own sets. -/
theorem shared_set_records :
    (∀ (c : Config) (x y : Int) (s : KeySet) (w : AnyWalker) (s1 : KeySet),
      AnyWalker.new c x y (.set s) = .ok (w, s1) → w.toWalker.visited ⊆ s1) ∧
    (∀ (fuel : Nat) (w w1 : AnyWalker) (m m1 : KeySet) (g g1 : Rng),
      w.toWalker.visited ⊆ m → w.move fuel m g = .ok (w1, m1, g1) →
      w1.toWalker.visited ⊆ m1) ∧
    (∀ (specs : List (Config × Int × Int)) (s : KeySet),
      ∃ (ws : List AnyWalker) (s1 : KeySet), constructAll specs s = .ok (ws, s1) ∧
        (∀ w ∈ ws, w.toWalker.visited ⊆ s1) ∧
        ∀ (fuel n : Nat) (g : Rng), ∀ w ∈ (expandMaze fuel n ws s1 g).walkers,
          w.toWalker.visited ⊆ (expandMaze fuel n ws s1 g).mazeState) := by
  refine ⟨?_, ?_, ?_⟩
  · intro c x y s w s1 h
    obtain ⟨s0, ha, rfl, -, -, hv⟩ := anyWalker_new_ok h
    rw [hv]
    exact Finset.singleton_subset_iff.2 (Finset.mem_insert_self _ _)
  · intro fuel w w1 m m1 g g1 hs h
    exact AnyWalker.move_subset hs h
  · intro specs s
    obtain ⟨ws, s1, hc, -, -, hall⟩ := constructAll_ok specs s
    exact ⟨ws, s1, hc, hall, fun fuel n g => expandMaze_subset fuel n ws s1 g hall⟩

/-- Witness of C19: a `SpiralWalker` at (0,0) whose own set {"0,0"} is in the shared set
{"0,0", "5,5"}, moved once. -/
theorem shared_set_records_witness :
    ({"0,0"} : KeySet) ⊆ {"0,0", "5,5"} ∧
    (SpiralWalker.move ⟨⟨0, 0, "S", "cyan", {"0,0"}⟩, 1, 0, 0⟩ {"0,0", "5,5"}).1.visited ⊆
      (SpiralWalker.move ⟨⟨0, 0, "S", "cyan", {"0,0"}⟩, 1, 0, 0⟩ {"0,0", "5,5"}).2 :=
  ⟨by decide,
    shared_set_records.2.1 0 (.spiral ⟨⟨0, 0, "S", "cyan", {"0,0"}⟩, 1, 0, 0⟩) _
      {"0,0", "5,5"} _ (Rng.const ⟨0, 1, by decide⟩) _ (by decide) rfl⟩

/-! ## C20: the spiral never comes back -/

theorem spiral_direction (k : Nat) :
    SpiralWalker.directions.get ⟨k % 4, Nat.mod_lt k (by decide)⟩ =
      if k % 4 = 0 then ⟨1, 0⟩ else if k % 4 = 1 then ⟨0, 1⟩
      else if k % 4 = 2 then ⟨-1, 0⟩ else ⟨0, -1⟩ := by
  have key : ∀ (r : Nat) (h : r < SpiralWalker.directions.length),
      SpiralWalker.directions.get ⟨r, h⟩ =
        if r = 0 then ⟨1, 0⟩ else if r = 1 then ⟨0, 1⟩
        else if r = 2 then ⟨-1, 0⟩ else ⟨0, -1⟩ := by
    intro r h
    have h4 : r < 4 := h
    interval_cases r <;> rfl
  exact key (k % 4) _

theorem spiralOffset_step (k i : Nat) :
    (spiralOffset k (i + 1)).1 = (spiralOffset k i).1 +
      (SpiralWalker.directions.get ⟨k % 4, Nat.mod_lt k (by decide)⟩).dx ∧
    (spiralOffset k (i + 1)).2 = (spiralOffset k i).2 +
      (SpiralWalker.directions.get ⟨k % 4, Nat.mod_lt k (by decide)⟩).dy := by
  rw [spiral_direction]
  have h : k % 4 = 0 ∨ k % 4 = 1 ∨ k % 4 = 2 ∨ k % 4 = 3 := by omega
  rcases h with h | h | h | h <;> simp [spiralOffset, h] <;> omega

theorem spiralOffset_turn (k : Nat) : spiralOffset (k + 1) 0 = spiralOffset k (k / 2 + 1) := by
  have h : k % 4 = 0 ∨ k % 4 = 1 ∨ k % 4 = 2 ∨ k % 4 = 3 := by omega
  rcases h with h | h | h | h
  · have h1 : (k + 1) % 4 = 1 := by omega
    simp only [spiralOffset, h, h1, Prod.mk.injEq]
    constructor <;> omega
  · have h1 : (k + 1) % 4 = 2 := by omega
    simp only [spiralOffset, h, h1, Prod.mk.injEq]
    constructor <;> omega
  · have h1 : (k + 1) % 4 = 3 := by omega
    simp only [spiralOffset, h, h1, Prod.mk.injEq]
    constructor <;> omega
  · have h1 : (k + 1) % 4 = 0 := by omega
    simp only [spiralOffset, h, h1, Prod.mk.injEq]
    constructor <;> omega

/-- Closed form of the position of the spiral before move `i` of leg `k`. -/
theorem spiral_position (w : SpiralWalker) (m : KeySet)
    (h0 : w.directionIndex.val = 0 ∧ w.stepSize = 1 ∧ w.stepsTaken = 0) :
    ∀ k i : Nat, i ≤ k / 2 →
      (SpiralWalker.run (legStart k + i) w m).1.x = w.x + (spiralOffset k i).1 ∧
      (SpiralWalker.run (legStart k + i) w m).1.y = w.y + (spiralOffset k i).2 := by
  have step : ∀ k i : Nat, i ≤ k / 2 →
      ((SpiralWalker.run (legStart k + i) w m).1.x = w.x + (spiralOffset k i).1 ∧
        (SpiralWalker.run (legStart k + i) w m).1.y = w.y + (spiralOffset k i).2) →
      ((SpiralWalker.run (legStart k + i + 1) w m).1.x = w.x + (spiralOffset k (i + 1)).1 ∧
        (SpiralWalker.run (legStart k + i + 1) w m).1.y =
          w.y + (spiralOffset k (i + 1)).2) := by
    intro k i hi ⟨hx, hy⟩
    obtain ⟨sx, sy⟩ := spiral_leg_shift w m h0 k i hi
    obtain ⟨ox, oy⟩ := spiralOffset_step k i
    rw [sx, sy, hx, hy, ox, oy]
    exact ⟨by omega, by omega⟩
  intro k
  induction k with
  | zero =>
    intro i hi
    have : i = 0 := by omega
    subst this
    simp [legStart, SpiralWalker.run, spiralOffset]
  | succ k ih =>
    intro i hi
    induction i with
    | zero =>
      have he : legStart (k + 1) + 0 = legStart k + k / 2 + 1 := by
        simp only [legStart]; omega
      rw [he, spiralOffset_turn]
      exact step k (k / 2) (Nat.le_refl _) (ih (k / 2) (Nat.le_refl _))
    | succ i ihi =>
      have := step (k + 1) i (by omega) (ihi (by omega))
      rw [Nat.add_assoc] at this
      exact this

/-- Two moves of two legs start from the same cell only if they are the same move. -/
theorem spiralOffset_inj (k i k1 i1 : Nat) (hi : i ≤ k / 2) (hi1 : i1 ≤ k1 / 2)
    (h : spiralOffset k i = spiralOffset k1 i1) : k = k1 ∧ i = i1 := by
  have hk : k % 4 = 0 ∨ k % 4 = 1 ∨ k % 4 = 2 ∨ k % 4 = 3 := by omega
  have hk1 : k1 % 4 = 0 ∨ k1 % 4 = 1 ∨ k1 % 4 = 2 ∨ k1 % 4 = 3 := by omega
  rcases hk with a | a | a | a <;> rcases hk1 with b | b | b | b <;>
    simp only [spiralOffset, a, b, Prod.mk.injEq] at h <;> omega

theorem spiral_positions_inj (w : SpiralWalker) (m : KeySet)
    (h0 : w.directionIndex.val = 0 ∧ w.stepSize = 1 ∧ w.stepsTaken = 0) (a b : Nat)
    (h : ((SpiralWalker.run a w m).1.x, (SpiralWalker.run a w m).1.y) =
      ((SpiralWalker.run b w m).1.x, (SpiralWalker.run b w m).1.y)) : a = b := by
  obtain ⟨k, i, hi, rfl⟩ := legStart_cover a
  obtain ⟨k1, i1, hi1, rfl⟩ := legStart_cover b
  obtain ⟨ax, ay⟩ := spiral_position w m h0 k i hi
  obtain ⟨bx, b_y⟩ := spiral_position w m h0 k1 i1 hi1
  simp only [Prod.mk.injEq] at h
  rw [ax, ay, bx, b_y] at h
  have heq : spiralOffset k i = spiralOffset k1 i1 :=
    Prod.ext (by omega) (by omega)
  obtain ⟨rfl, rfl⟩ := spiralOffset_inj k i k1 i1 hi hi1 heq
  rfl

theorem spiral_visited_image (w : SpiralWalker) (m : KeySet)
    (hv : w.visited = {getPosition w.x w.y}) : ∀ n : Nat,
    (SpiralWalker.run n w m).1.visited = (Finset.range (n + 1)).image
      (fun i => getPosition (SpiralWalker.run i w m).1.x (SpiralWalker.run i w m).1.y) := by
  intro n
  induction n with
  | zero => simp [SpiralWalker.run, hv]
  | succ n ih =>
    have hs := (spiral_move_sets (SpiralWalker.run n w m).1 (SpiralWalker.run n w m).2).1
    rw [← spiral_run_succ] at hs
    rw [hs, ih, Finset.range_succ (n := n + 1), Finset.image_insert]

/-- C20: for a `SpiralWalker` constructed at any (x0,y0), the positions it occupies at
construction and after each of its moves are pairwise different (the positions after `a`
and after `b` moves are equal only if `a = b`), and after `n` moves its `visited` set has
exactly `n + 1` elements. -/
theorem spiral_never_revisits (x0 y0 : Int) (mazeState : KeySet) (color : Option String) :
    ∃ (w : SpiralWalker) (s : KeySet),
      SpiralWalker.new x0 y0 (.set mazeState) color = .ok (w, s) ∧
      (∀ a b : Nat,
        ((SpiralWalker.run a w s).1.x, (SpiralWalker.run a w s).1.y) =
          ((SpiralWalker.run b w s).1.x, (SpiralWalker.run b w s).1.y) → a = b) ∧
      (∀ n : Nat, (SpiralWalker.run n w s).1.visited.card = n + 1) := by
  refine ⟨_, _, rfl, ?_, ?_⟩
  · exact spiral_positions_inj
      (⟨⟨x0, y0, "S", color.getD "cyan", insert (getPosition x0 y0) ∅⟩, 1, 0, 0⟩ : SpiralWalker)
      (insert (getPosition x0 y0) mazeState) ⟨rfl, rfl, rfl⟩
  · intro n
    rw [spiral_visited_image
      (⟨⟨x0, y0, "S", color.getD "cyan", insert (getPosition x0 y0) ∅⟩, 1, 0, 0⟩ : SpiralWalker)
      (insert (getPosition x0 y0) mazeState) (by simp) n]
    rw [Finset.card_image_of_injective, Finset.card_range]
    intro a b hab
    obtain ⟨hx, hy⟩ := getPosition_inj.1 hab
    exact spiral_positions_inj _ _ ⟨rfl, rfl, rfl⟩ a b (Prod.ext hx hy)

/-- Witness of C20: the spiral built at (0,0) on the empty set is not on its start cell
after 8 moves, and has 9 cells in its `visited` set. -/
theorem spiral_never_revisits_witness :
    ∃ (w : SpiralWalker) (s : KeySet),
      SpiralWalker.new 0 0 (.set ∅) none = .ok (w, s) ∧
      ((SpiralWalker.run 8 w s).1.x, (SpiralWalker.run 8 w s).1.y) ≠
        ((SpiralWalker.run 0 w s).1.x, (SpiralWalker.run 0 w s).1.y) ∧
      (SpiralWalker.run 8 w s).1.visited.card = 8 + 1 := by
  obtain ⟨w, s, h, hinj, hcard⟩ := spiral_never_revisits 0 0 ∅ none
  exact ⟨w, s, h, fun heq => absurd (hinj 8 0 heq) (by decide), hcard 8⟩

end Kone
